import Mathlib

/-!
HTTP/2 frame payload codecs: DATA, HEADERS, PRIORITY and the padding helpers.

A shallow embedding of `http2utils/utils.go`, `data.go`, `headers.go` and
`priority.go`.

Conventions of the embedding

* A byte is a `Nat`; every conversion `byte(x)` / `uint8(x)` of the source is an
  explicit `% 256`, every `uint32` operation an explicit `% 2 ^ 32`.
* A Go `int` is an `Int`.
* A Go slice is a `Slice`: the bytes it shows (`data`) and the bytes of its
  backing array that lie between its length and its capacity (`spare`).
* A run-time panic (index or slice expression out of range) is `none`; a
  function that can panic returns an `Option`.
* A Go `error` result is an `Option GoError`, `none` being `nil`.
-/

namespace Http2

/-! ## Go slices -/

/-- A Go `[]byte` seen from its own first element: `data` are the `len` visible
bytes, `spare` the bytes of the backing array from `len` up to `cap`. -/
structure Slice where
  data : List Nat
  spare : List Nat
deriving DecidableEq

namespace Slice

/-- The value `nil` of type `[]byte`: length 0, capacity 0. -/
def nil : Slice := ⟨[], []⟩

/-- Go `len(s)`. -/
def len (s : Slice) : Nat := s.data.length

/-- Go `cap(s)`. -/
def cap (s : Slice) : Nat := s.data.length + s.spare.length

/-- The backing array from the start of the slice up to its capacity. -/
def backing (s : Slice) : List Nat := s.data ++ s.spare

/-- Go `s[lo:hi]`: panics unless `0 ≤ lo ≤ hi ≤ cap(s)`; the bound is the
capacity, not the length. -/
def slice (s : Slice) (lo hi : Int) : Option Slice :=
  if 0 ≤ lo ∧ lo ≤ hi ∧ hi ≤ (s.cap : Int) then
    some ⟨(s.backing.drop lo.toNat).take (hi.toNat - lo.toNat), s.backing.drop hi.toNat⟩
  else none

/-- Go `s[lo:]`, which is `s[lo:len(s)]`. -/
def sliceFrom (s : Slice) (lo : Int) : Option Slice := s.slice lo s.len

/-- Go `s[i]` as a value: panics unless `0 ≤ i < len(s)`. -/
def index (s : Slice) (i : Int) : Option Nat :=
  if 0 ≤ i then s.data[i.toNat]? else none

/-- Go `s[i] = v`: panics unless `0 ≤ i < len(s)`. -/
def set (s : Slice) (i : Int) (v : Nat) : Option Slice :=
  if 0 ≤ i ∧ i < (s.len : Int) then some ⟨s.data.set i.toNat v, s.spare⟩ else none

/-- Go `append(s, xs...)`. With room in the backing array the bytes are written
in place; otherwise a new array is allocated, whose capacity beyond the needed
length is chosen by the runtime (`grow oldCap neededLen` zeroed bytes). The
bytes `xs` are read before any byte is written (`memmove`), so the definition
also covers an `xs` that overlaps the array of `s`. -/
def append (grow : Nat → Nat → Nat) (s : Slice) (xs : List Nat) : Slice :=
  if xs.length ≤ s.spare.length then ⟨s.data ++ xs, s.spare.drop xs.length⟩
  else ⟨s.data ++ xs, List.replicate (grow s.cap (s.len + xs.length)) 0⟩

/-- The effect on `s` of overwriting, through a sub-slice `s[lo:lo+len(xs)]`
that shares its backing array, the bytes at positions `lo ..` by `xs`. -/
def writeBack (s : Slice) (lo : Nat) (xs : List Nat) : Slice :=
  let all := s.backing.take lo ++ xs ++ s.backing.drop (lo + xs.length)
  ⟨all.take s.len, all.drop s.len⟩

end Slice

/-! ## Errors -/

/-- The error values of the package. `outOfRange a b` is the value built by
`fmt.Errorf("out of range: %d < %d", a, b)`; `ErrPayloadExceeds` is what the
envelope answers to an oversized payload. -/
inductive GoError where
  | outOfRange (size bound : Int)
  | ErrMissingBytes
  | ErrPayloadExceeds
deriving DecidableEq

/-! ## `http2utils` -/

/-- Go `Uint24ToBytes(b, n)`: the bound check `_ = b[2]`, then three stores. The
result is the slice `b` after the stores. -/
def Uint24ToBytes (b : Slice) (n : Nat) : Option Slice := do
  let _ ← b.index 2
  let b ← b.set 0 ((n >>> 16) % 256)
  let b ← b.set 1 ((n >>> 8) % 256)
  b.set 2 (n % 256)

/-- Go `BytesToUint24(b)`: the bound check `_ = b[2]`, then the three bytes
combined as a `uint32`. -/
def BytesToUint24 (b : Slice) : Option Nat := do
  let _ ← b.index 2
  let b0 ← b.index 0
  let b1 ← b.index 1
  let b2 ← b.index 2
  pure (((b0 % 2 ^ 32) <<< 16) % 2 ^ 32 ||| ((b1 % 2 ^ 32) <<< 8) % 2 ^ 32 ||| b2 % 2 ^ 32)

/-- Go `AppendUint32Bytes(dst, n)`. -/
def AppendUint32Bytes (grow : Nat → Nat → Nat) (dst : Slice) (n : Nat) : Slice :=
  dst.append grow [(n >>> 24) % 256, (n >>> 16) % 256, (n >>> 8) % 256, n % 256]

/-- Go `Uint32ToBytes(b, n)`: the bound check `_ = b[3]`, then four stores. The
result is the slice `b` after the stores. -/
def Uint32ToBytes (b : Slice) (n : Nat) : Option Slice := do
  let _ ← b.index 3
  let b ← b.set 0 ((n >>> 24) % 256)
  let b ← b.set 1 ((n >>> 16) % 256)
  let b ← b.set 2 ((n >>> 8) % 256)
  b.set 3 (n % 256)

/-- Go `BytesToUint32(b)`: the bound check `_ = b[3]`, then the four bytes
combined as a `uint32`. -/
def BytesToUint32 (b : Slice) : Option Nat := do
  let _ ← b.index 3
  let b0 ← b.index 0
  let b1 ← b.index 1
  let b2 ← b.index 2
  let b3 ← b.index 3
  pure (((b0 % 2 ^ 32) <<< 24) % 2 ^ 32 ||| ((b1 % 2 ^ 32) <<< 16) % 2 ^ 32 |||
    ((b2 % 2 ^ 32) <<< 8) % 2 ^ 32 ||| b3 % 2 ^ 32)

/-- The loop of `EqualsFold`, with `i` the loop variable and the last argument
the number of iterations left before `i` reaches `n`. -/
def EqualsFold.loop (a b : Slice) (i : Nat) : Nat → Option Bool
  | 0 => some true
  | k + 1 => do
    let x ← a.index i
    let y ← b.index i
    if x ||| 0x20 ≠ y ||| 0x20 then pure false else EqualsFold.loop a b (i + 1) k

/-- Go `EqualsFold(a, b)`. -/
def EqualsFold (a b : Slice) : Option Bool :=
  let n := a.len
  if n ≠ b.len then some false else EqualsFold.loop a b 0 n

/-- The ASCII lower-case form of a byte: `'A'..'Z'` go to `'a'..'z'`, every other
byte stays. -/
def asciiLower (c : Nat) : Nat := if 0x41 ≤ c ∧ c ≤ 0x5A then c + 0x20 else c

/-- A byte is an ASCII letter. -/
def isAsciiLetter (c : Nat) : Bool :=
  decide ((0x41 ≤ c ∧ c ≤ 0x5A) ∨ (0x61 ≤ c ∧ c ≤ 0x7A))

/-- Go `Resize(b, neededLen)`. -/
def Resize (grow : Nat → Nat → Nat) (b : Slice) (neededLen : Int) : Option Slice := do
  let b ← b.slice 0 b.cap
  let n : Int := neededLen - b.len
  let b := if n > 0 then b.append grow (List.replicate n.toNat 0) else b
  b.slice 0 neededLen

/-- The value a 64-bit `int` holds after an operation whose exact result is `x`. -/
def wrap64 (x : Int) : Int := (x + 2 ^ 63) % 2 ^ 64 - 2 ^ 63

/-- Go `CutPadding(payload, length)`. The two results of the source are the pair;
`none` is the panic of `payload[0]` on an empty payload or of the slice
expression `payload[1 : length-pad]` beyond the capacity.

`int` is 64 bits wide in the source. The number `length-pad-1` that the error
value carries is the one the machine computes, with both subtractions wrapped.
The guard is written on the exact differences: on 64-bit `int`s it has the same
truth value, and where it lets the call through `length-pad` has not wrapped
(`cutPaddingGuard64_eq`). -/
def CutPadding (payload : Slice) (length : Int) : Option (Slice × Option GoError) := do
  let p ← payload.index 0
  let pad : Int := p
  if (payload.len : Int) < length - pad - 1 ∨ length - pad < 1 then
    pure (Slice.nil,
      some (GoError.outOfRange payload.len (wrap64 (wrap64 (length - pad) - 1))))
  else do
    let payload ← payload.slice 1 (length - pad)
    pure (payload, none)

/-- The guard of `CutPadding` as the machine evaluates it, on 64-bit `int`s. -/
def cutPaddingGuard64 (len : Nat) (length pad : Int) : Bool :=
  decide ((len : Int) < wrap64 (wrap64 (length - pad) - 1) ∨ wrap64 (length - pad) < 1)

/-- Go `rand.Read(dst)` of `crypto/rand`: every visible byte of `dst` is
replaced by the next byte of the random source `rnd`. -/
def randRead (rnd : Nat → Nat) (dst : Slice) : Slice :=
  ⟨(List.range dst.len).map (fun i => rnd i % 256), dst.spare⟩

/-- Go `AddPadding(b)`. `r` is the value returned by `fastrand.Uint32n(256-9)`,
`rnd` the byte stream of `crypto/rand`. -/
def AddPadding (grow : Nat → Nat → Nat) (r : Nat) (rnd : Nat → Nat) (b : Slice) :
    Option Slice := do
  let n : Int := (r : Int) + 9
  let nn : Int := b.len
  let b ← Resize grow b (nn + n)
  let b1 ← b.slice 0 1
  let b := b1.append grow b.data
  let b ← b.set 0 (n.toNat % 256)
  let sub ← b.slice (nn + 1) (nn + n)
  let sub := randRead rnd sub
  pure (b.writeBack (nn + 1).toNat sub.data)


/-- The big-endian value of four bytes. -/
def be32 (b0 b1 b2 b3 : Nat) : Nat := b0 * 2 ^ 24 + b1 * 2 ^ 16 + b2 * 2 ^ 8 + b3

/-! ## The frame envelope -/

/-- Modelled from the spec: the frame envelope `Frame`, which the repository
declares outside the four source files. §3 gives it a length, a type tag, a
flag bitset, a stream identifier and the raw payload bytes; §6 gives it a
negotiated maximum frame size, against which `set_payload` checks. -/
structure Frame where
  length : Nat
  kind : Nat
  flags : Nat
  stream : Nat
  maxLen : Nat
  payload : Slice
deriving DecidableEq

/-- Modelled from the spec: the flag END_STREAM, with its value of RFC 7540 §6.1
(§6 of the spec asks for the RFC's values). -/
def FlagEndStream : Nat := 0x1

/-- Modelled from the spec: the flag END_HEADERS, with its value of RFC 7540 §6.2. -/
def FlagEndHeaders : Nat := 0x4

/-- Modelled from the spec: the flag PADDED, with its value of RFC 7540 §6.1. -/
def FlagPadded : Nat := 0x8

/-- Modelled from the spec: the flag PRIORITY, with its value of RFC 7540 §6.2. -/
def FlagPriority : Nat := 0x20

/-- The constant `FrameData` of `data.go`. -/
def FrameData : Nat := 0x0

/-- The constant `FrameHeaders` of `headers.go`. -/
def FrameHeaders : Nat := 0x1

/-- The constant `FramePriority` of `priority.go`. -/
def FramePriority : Nat := 0x2

namespace Frame

/-- Modelled from the spec: `payload() -> bytes` of §6. -/
def Payload (fr : Frame) : Slice := fr.payload

/-- Modelled from the spec: `declared_length() -> uint` of §6, passed by the
source to the `int` parameter of `CutPadding`. -/
def Len (fr : Frame) : Int := fr.length

/-- Modelled from the spec: `has_flag(flag) -> bool` of §6, on the flag bitset. -/
def HasFlag (fr : Frame) (f : Nat) : Bool := fr.flags &&& f == f

/-- Modelled from the spec: `add_flag(flag)` of §6, on the flag bitset. -/
def AddFlag (fr : Frame) (f : Nat) : Frame := { fr with flags := fr.flags ||| f }

/-- Modelled from the spec: `set_type(kind)` of §6. -/
def SetType (fr : Frame) (kind : Nat) : Frame := { fr with kind := kind }

/-- Modelled from the spec: `set_payload(bytes) -> Result<()>` of §6, which
"fails if payload exceeds a negotiated maximum frame size" and otherwise makes
the bytes the payload of the envelope. A rejected call leaves the envelope as
it was. The declared length follows the payload; the spec is silent on it and
no statement below depends on it. -/
def SetPayload (fr : Frame) (b : Slice) : Frame × Option GoError :=
  if fr.maxLen < b.len then (fr, some GoError.ErrPayloadExceeds)
  else ({ fr with payload := b, length := b.len }, none)

end Frame

/-! ## `data.go` -/

/-- The struct `Data`. -/
structure Data where
  endStream : Bool
  hasPadding : Bool
  b : Slice
deriving DecidableEq

namespace Data

/-- Go `(*Data).Reset`. -/
def Reset (data : Data) : Option Data := do
  let b ← data.b.slice 0 0
  pure { endStream := false, hasPadding := false, b := b }

/-- Go `(*Data).ReadFrame`. The source writes the call of the PADDED branch as
`payload = http2utils.CutPadding(payload, fr.Len())`, one variable for the two
results of `CutPadding`, which Go does not accept. The call is read here as
`payload, err = http2utils.CutPadding(payload, fr.Len())`: the second result
goes to the named result `err` of the function, the only variable of type
`error` in scope, and the statements that follow run as written. Without the
PADDED flag the line is not reached. -/
def ReadFrame (grow : Nat → Nat → Nat) (data : Data) (fr : Frame) :
    Option (Data × Option GoError) := do
  let payload := fr.Payload
  let (payload, err) ←
    if fr.HasFlag FlagPadded then CutPadding payload fr.Len else pure (payload, none)
  let data := { data with endStream := fr.HasFlag FlagEndStream }
  let b0 ← data.b.slice 0 0
  let data := { data with b := b0.append grow payload.data }
  pure (data, err)

/-- Go `(*Data).WriteFrame`; the result of `fr.SetPayload` is dropped by the
source. `r` and `rnd` are the two random sources of `AddPadding`. -/
def WriteFrame (grow : Nat → Nat → Nat) (r : Nat) (rnd : Nat → Nat) (data : Data)
    (fr : Frame) : Option (Data × Frame) := do
  let fr := fr.SetType FrameData
  let fr := if data.endStream then fr.AddFlag FlagEndStream else fr
  let (fr, data) ←
    if data.hasPadding then do
      let fr := fr.AddFlag FlagPadded
      let b ← AddPadding grow r rnd data.b
      pure (fr, { data with b := b })
    else pure (fr, data)
  let fr := (fr.SetPayload data.b).1
  pure (data, fr)

end Data

/-! ## `priority.go` -/

/-- The struct `Priority`. -/
structure Priority where
  stream : Nat
  weight : Nat
deriving DecidableEq

namespace Priority

/-- Go `(*Priority).Reset`. -/
def Reset (_pry : Priority) : Priority := { stream := 0, weight := 0 }

/-- Go `(*Priority).Stream`. -/
def Stream (pry : Priority) : Nat := pry.stream

/-- Go `(*Priority).SetStream`: `stream & (1<<31 - 1)`. -/
def SetStream (pry : Priority) (stream : Nat) : Priority :=
  { pry with stream := stream &&& ((1 <<< 31) - 1) }

/-- Go `(*Priority).Weight`. -/
def Weight (pry : Priority) : Nat := pry.weight

/-- Go `(*Priority).SetWeight`. -/
def SetWeight (pry : Priority) (w : Nat) : Priority := { pry with weight := w }

/-- Go `(*Priority).ReadFrame`. -/
def ReadFrame (pry : Priority) (fr : Frame) : Option (Priority × Option GoError) :=
  if fr.payload.len < 5 then pure (pry, some GoError.ErrMissingBytes)
  else do
    let v ← BytesToUint32 fr.payload
    let pry := { pry with stream := v &&& ((1 <<< 31) - 1) }
    let w ← fr.payload.index 4
    pure ({ pry with weight := w }, none)

/-- Go `(*Priority).WriteFrame`. -/
def WriteFrame (grow : Nat → Nat → Nat) (pry : Priority) (fr : Frame) : Option Frame := do
  let fr := fr.SetType FramePriority
  let p0 ← fr.payload.slice 0 0
  let fr := { fr with payload := AppendUint32Bytes grow p0 pry.stream }
  pure { fr with payload := fr.payload.append grow [pry.weight] }

end Priority

/-! ## `headers.go` -/

/-- The struct `Headers`. -/
structure Headers where
  hasPadding : Bool
  stream : Nat
  weight : Nat
  endStream : Bool
  endHeaders : Bool
  rawHeaders : Slice
deriving DecidableEq

namespace Headers

/-- Go `(*Headers).Reset`. -/
def Reset (h : Headers) : Option Headers := do
  let raw ← h.rawHeaders.slice 0 0
  pure { hasPadding := false, stream := 0, weight := 0, endStream := false,
         endHeaders := false, rawHeaders := raw }

/-- Go `(*Headers).Stream`. -/
def Stream (h : Headers) : Nat := h.stream

/-- Go `(*Headers).SetStream`: the value is stored as it is. -/
def SetStream (h : Headers) (stream : Nat) : Headers := { h with stream := stream }

/-- Go `(*Headers).Weight`. -/
def Weight (h : Headers) : Nat := h.weight

/-- Go `(*Headers).SetWeight`. -/
def SetWeight (h : Headers) (w : Nat) : Headers := { h with weight := w }

/-- Go `(*Headers).ReadFrame`. The call of the PADDED branch is read as in
`Data.ReadFrame`: `payload, err = http2utils.CutPadding(payload, fr.Len())`.
The length test of the PRIORITY branch is on `fr.payload`, the reads that
follow are on the local `payload`. -/
def ReadFrame (grow : Nat → Nat → Nat) (h : Headers) (fr : Frame) :
    Option (Headers × Option GoError) := do
  let payload := fr.Payload
  let (payload, err) ←
    if fr.HasFlag FlagPadded then CutPadding payload fr.Len else pure (payload, none)
  let (h, payload, err) ←
    if fr.HasFlag FlagPriority then
      if fr.payload.len < 5 then pure (h, payload, some GoError.ErrMissingBytes)
      else do
        let v ← BytesToUint32 payload
        let h := { h with stream := v &&& ((1 <<< 31) - 1) }
        let w ← payload.index 4
        let h := { h with weight := w }
        let payload ← payload.sliceFrom 5
        pure (h, payload, err)
    else pure (h, payload, err)
  if err = none then
    pure ({ h with endStream := fr.HasFlag FlagEndStream,
                   endHeaders := fr.HasFlag FlagEndHeaders,
                   rawHeaders := h.rawHeaders.append grow payload.data }, none)
  else pure (h, err)

/-- Go `(*Headers).WriteFrame`. In the PRIORITY branch the source stores
`fr.stream` through the sub-slice `h.rawHeaders[1:5]` and `h.weight` at
`h.rawHeaders[5]`. -/
def WriteFrame (grow : Nat → Nat → Nat) (r : Nat) (rnd : Nat → Nat) (h : Headers)
    (fr : Frame) : Option (Headers × Frame × Option GoError) := do
  let fr := fr.SetType FrameHeaders
  let fr := if h.endStream then fr.AddFlag FlagEndStream else fr
  let fr := if h.endHeaders then fr.AddFlag FlagEndHeaders else fr
  let (fr, h) ←
    if h.stream > 0 ∧ h.weight > 0 then do
      let fr := fr.AddFlag FlagPriority
      let sub ← h.rawHeaders.slice 1 5
      let sub ← Uint32ToBytes sub fr.stream
      let raw := h.rawHeaders.writeBack 1 sub.data
      let raw ← raw.set 5 h.weight
      pure (fr, { h with rawHeaders := raw })
    else pure (fr, h)
  let (fr, h) ←
    if h.hasPadding then do
      let fr := fr.AddFlag FlagPadded
      let raw ← AddPadding grow r rnd h.rawHeaders
      pure (fr, { h with rawHeaders := raw })
    else pure (fr, h)
  let (fr, err) := fr.SetPayload h.rawHeaders
  pure (h, fr, err)

end Headers

/-! ## The pools -/

/-- Go `(*sync.Pool).Put`: the instance joins the pool. -/
def poolPut {α : Type} (pool : List α) (x : α) : List α := x :: pool

/-- Go `(*sync.Pool).Get`: some instance of the pool is taken out of it, or, the
pool having none to give, `New` makes one. Which instance is the choice of the
runtime: `pick` is its position, `0` being the instance put last. -/
def poolGet {α : Type} (pool : List α) (pick : Nat) (new : α) : α × List α :=
  match pool[pick]? with
  | some x => (x, pool.eraseIdx pick)
  | none => (new, pool)

/-- Go `AcquireData`: `Get`, then `Reset`. `New` is `&Data{}`. -/
def AcquireData (pool : List Data) (pick : Nat) : Option (Data × List Data) := do
  let (data, pool) := poolGet pool pick ⟨false, false, Slice.nil⟩
  let data ← data.Reset
  pure (data, pool)

/-- Go `ReleaseData`: `Put`, without a reset. -/
def ReleaseData (pool : List Data) (data : Data) : List Data := poolPut pool data

/-- Go `AcquireHeaders`: `Get`, then `Reset`. `New` is `&Headers{}`. -/
def AcquireHeaders (pool : List Headers) (pick : Nat) : Option (Headers × List Headers) := do
  let (h, pool) := poolGet pool pick ⟨false, 0, 0, false, false, Slice.nil⟩
  let h ← h.Reset
  pure (h, pool)

/-- Go `ReleaseHeaders`: `Put`, without a reset. -/
def ReleaseHeaders (pool : List Headers) (h : Headers) : List Headers := poolPut pool h

/-- Go `AcquirePriority`: `Get`, without a reset. `New` is `&Priority{}`. -/
def AcquirePriority (pool : List Priority) (pick : Nat) : Priority × List Priority :=
  poolGet pool pick ⟨0, 0⟩

/-- Go `ReleasePriority`: `Reset`, then `Put`. -/
def ReleasePriority (pool : List Priority) (pry : Priority) : List Priority :=
  poolPut pool pry.Reset

/-! ## Concrete inputs used by the counterexamples and evaluations -/

/-- A growth policy of the runtime that never allocates more than was asked. -/
def growExact : Nat → Nat → Nat := fun _ _ => 0

/-- A random byte source that only produces zero bytes. -/
def rndZero : Nat → Nat := fun _ => 0

/-- An envelope with no flag set, an empty payload and the default maximum
frame size of RFC 7540, `2^14`. -/
def freshFrame : Frame :=
  { length := 0, kind := 0, flags := 0, stream := 1, maxLen := 16384, payload := ⟨[], []⟩ }

/-- A `Data` without padding whose bytes are `2^14 + 1` zero bytes. -/
def bigData : Data :=
  { endStream := false, hasPadding := false, b := ⟨List.replicate 16385 0, []⟩ }

/-- A `Data` in the state `Reset` leaves it in. -/
def emptyData : Data := { endStream := false, hasPadding := false, b := ⟨[], []⟩ }

/-- A `Headers` in the state `Reset` leaves it in. -/
def resetHeaders : Headers :=
  { hasPadding := false, stream := 0, weight := 0, endStream := false, endHeaders := false,
    rawHeaders := ⟨[], []⟩ }

/-- A `Headers` with dependency `0xFFFFFFFF`, weight 7 and a header block of
seven bytes, without padding. -/
def prioHeaders : Headers :=
  { ((resetHeaders.SetStream 0xFFFFFFFF).SetWeight 7) with
    rawHeaders := ⟨[0xAA, 0xBB, 0xCC, 0xDD, 0xEE, 0xFF, 0x11], []⟩ }

/-- A HEADERS envelope with the flags PADDED and PRIORITY, declared length 5,
whose payload is the pad length 0 followed by four bytes. -/
def paddedPriorityFrame : Frame :=
  { length := 5, kind := FrameHeaders, flags := 0x28, stream := 1, maxLen := 16384,
    payload := ⟨[0, 1, 2, 3, 4], []⟩ }

/-- An unpadded HEADERS envelope with the flags PRIORITY and END_HEADERS whose
payload is exactly the five bytes of a dependency `0xFFFFFFFF` and a weight 7. -/
def priorityOnlyFrame : Frame :=
  { length := 5, kind := FrameHeaders, flags := 0x24, stream := 1, maxLen := 16384,
    payload := ⟨[0xFF, 0xFF, 0xFF, 0xFF, 7], []⟩ }

/-- An unpadded HEADERS envelope with the flag END_STREAM only and a payload of
three bytes. -/
def plainHeadersFrame : Frame :=
  { length := 3, kind := FrameHeaders, flags := 0x1, stream := 1, maxLen := 16384,
    payload := ⟨[0x82, 0x86, 0x84], []⟩ }

/-- A DATA or HEADERS envelope with the flag PADDED, declared length 0 and an
empty payload. -/
def emptyPaddedFrame : Frame :=
  { length := 0, kind := FrameData, flags := 0x8, stream := 1, maxLen := 16384,
    payload := ⟨[], []⟩ }

/-- An envelope with the flag PADDED, declared length 3 and the two payload
bytes `00 41`, in a buffer without spare capacity. -/
def longDeclaredFrame : Frame :=
  { length := 3, kind := FrameData, flags := 0x8, stream := 1, maxLen := 16384,
    payload := ⟨[0, 0x41], []⟩ }

/-- A `Headers` after `Reset` with dependency 1 and weight 1 and no header
block. -/
def emptyPrioHeaders : Headers := (resetHeaders.SetStream 1).SetWeight 1

/-- A `Headers` with dependency 1, weight 1 and a header block of five bytes in
a buffer of capacity 8. -/
def shortPrioHeaders : Headers :=
  { emptyPrioHeaders with rawHeaders := ⟨[1, 2, 3, 4, 5], [0, 0, 0]⟩ }

/-! ## Slice lemmas -/

namespace Slice

theorem slice_eq_some (s : Slice) (lo hi : Int) (h0 : 0 ≤ lo) (h1 : lo ≤ hi)
    (h2 : hi ≤ (s.cap : Int)) :
    s.slice lo hi =
      some ⟨(s.backing.drop lo.toNat).take (hi.toNat - lo.toNat), s.backing.drop hi.toNat⟩ := by
  unfold slice
  rw [if_pos ⟨h0, h1, h2⟩]

theorem index_zero_cons (s : Slice) (p : Nat) (rest : List Nat) (h : s.data = p :: rest) :
    s.index 0 = some p := by
  simp [index, h]

end Slice

/-! ## Padding -/

theorem CutPadding_ok (payload : Slice) (p : Nat) (rest : List Nat) (L : Int)
    (hp : payload.data = p :: rest) (h1 : 1 ≤ L - p) (h2 : L - p ≤ payload.len) :
    ∃ s, CutPadding payload L = some (s, none) ∧
      payload.slice 1 (L - p) = some s ∧
      s.data = (payload.data.take (L - p).toNat).drop 1 ∧
      s.data = rest.take (L - p - 1).toNat ∧
      (s.len : Int) = L - p - 1 := by
  have hlen : payload.len = rest.length + 1 := by simp [Slice.len, hp]
  have hs := Slice.slice_eq_some payload 1 (L - p) (by omega) h1
    (by simp only [Slice.cap, Slice.len] at *; omega)
  refine ⟨_, ?_, hs, ?_, ?_, ?_⟩
  · unfold CutPadding
    rw [Slice.index_zero_cons payload p rest hp]
    have hc : ¬ ((payload.len : Int) < L - p - 1 ∨ L - p < 1) := by omega
    simp only [Option.bind_eq_bind, Option.some_bind, if_neg hc, hs, Option.pure_def]
  · have e : (L - p).toNat = ((L - p).toNat - 1) + 1 := by omega
    simp only [Slice.backing, hp]
    rw [e]
    simp only [Int.toNat_one, List.cons_append, List.drop_succ_cons, List.drop_zero,
      Nat.add_sub_cancel, List.take_succ_cons]
    rw [List.take_append_of_le_length (by omega)]
  · have e : (L - p - 1).toNat = (L - p).toNat - 1 := by omega
    simp only [Slice.backing, hp, e]
    simp only [Int.toNat_one, List.cons_append, List.drop_succ_cons, List.drop_zero]
    rw [List.take_append_of_le_length (by omega)]
  · simp only [Slice.len, Slice.backing, hp, List.length_take, List.length_drop,
      List.length_append, List.length_cons]
    omega

/-- The guard of `CutPadding` on 64-bit `int`s agrees with the guard on
unbounded integers, and where it lets the call through `length - pad` has not
wrapped. -/
theorem cutPaddingGuard64_eq (len : Nat) (length pad : Int)
    (hL : -(2 ^ 63) ≤ length ∧ length < 2 ^ 63) (hp : 0 ≤ pad ∧ pad ≤ 255)
    (hlen : (len : Int) < 2 ^ 62) :
    (cutPaddingGuard64 len length pad = true ↔
      ((len : Int) < length - pad - 1 ∨ length - pad < 1)) ∧
    (cutPaddingGuard64 len length pad = false → wrap64 (length - pad) = length - pad) := by
  unfold cutPaddingGuard64 wrap64
  simp only [decide_eq_true_eq, decide_eq_false_iff_not]
  constructor
  · constructor <;> intro h <;> omega
  · intro h
    omega

/-- C2. For a non-empty payload with first byte `p` and a declared length `L`
with `1 ≤ L - p ≤ len(payload)`, `CutPadding` returns no error and returns the
sub-slice `payload[1 : L-p]`: the `L - p - 1` bytes that follow the length
prefix. -/
theorem CutPadding_success (payload : Slice) (p : Nat) (rest : List Nat) (L : Int)
    (hp : payload.data = p :: rest) (h1 : 1 ≤ L - p) (h2 : L - p ≤ payload.len) :
    ∃ s, CutPadding payload L = some (s, none) ∧
      payload.slice 1 (L - p) = some s ∧
      s.data = (payload.data.take (L - p).toNat).drop 1 ∧
      s.data = rest.take (L - p - 1).toNat ∧
      (s.len : Int) = L - p - 1 :=
  CutPadding_ok payload p rest L hp h1 h2

theorem CutPadding_success_witness :
    ∃ s, CutPadding ⟨[2, 7, 8, 0, 0], []⟩ 5 = some (s, none) ∧
      (⟨[2, 7, 8, 0, 0], []⟩ : Slice).slice 1 (5 - (2 : Nat)) = some s ∧
      s.data = (([2, 7, 8, 0, 0] : List Nat).take (5 - ((2 : Nat) : Int)).toNat).drop 1 ∧
      s.data = ([7, 8, 0, 0] : List Nat).take (5 - ((2 : Nat) : Int) - 1).toNat ∧
      (s.len : Int) = 5 - ((2 : Nat) : Int) - 1 :=
  CutPadding_success ⟨[2, 7, 8, 0, 0], []⟩ 2 [7, 8, 0, 0] 5 rfl (by decide) (by decide)

/-- C3. For a non-empty payload whose first byte `p` exceeds `L - 1`,
`CutPadding` returns the nil slice and the out-of-range error. The error
carries `len(payload)` and the number `L - p - 1` as the 64-bit machine
computes it, which is `L - p - 1` itself whenever `L - p` is above the least
`int`. -/
theorem CutPadding_reject (payload : Slice) (p : Nat) (rest : List Nat) (L : Int)
    (hp : payload.data = p :: rest) (h : (p : Int) > L - 1) :
    CutPadding payload L =
      some (Slice.nil,
        some (GoError.outOfRange payload.len (wrap64 (wrap64 (L - p) - 1)))) ∧
    (-(2 ^ 63) < L - p → wrap64 (wrap64 (L - p) - 1) = L - p - 1) := by
  constructor
  · unfold CutPadding
    rw [Slice.index_zero_cons payload p rest hp]
    have hc : (payload.len : Int) < L - p - 1 ∨ L - p < 1 := Or.inr (by omega)
    simp only [Option.bind_eq_bind, Option.some_bind, if_pos hc, Option.pure_def]
  · intro hl
    unfold wrap64
    omega

theorem CutPadding_reject_witness :
    CutPadding ⟨[10, 0x41], []⟩ 2 = some (Slice.nil, some (GoError.outOfRange 2 (-9))) ∧
    CutPadding ⟨[1, 0x41], []⟩ (-9223372036854775808) =
      some (Slice.nil, some (GoError.outOfRange 2 9223372036854775806)) :=
  ⟨(CutPadding_reject ⟨[10, 0x41], []⟩ 10 [0x41] 2 rfl (by decide)).1,
   (CutPadding_reject ⟨[1, 0x41], []⟩ 1 [0x41] (-9223372036854775808) rfl (by decide)).1⟩


theorem Slice.slice_full (s : Slice) : s.slice 0 s.cap = some ⟨s.backing, []⟩ := by
  rw [Slice.slice_eq_some s 0 s.cap (le_refl _) (by omega) (le_refl _)]
  have h : s.backing.length = s.cap := by simp [Slice.backing, Slice.cap]
  simp [h.symm]

theorem Slice.append_full (grow : Nat → Nat → Nat) (l : List Nat) (k : Nat) (hk : 0 < k) :
    (⟨l, []⟩ : Slice).append grow (List.replicate k 0) =
      ⟨l ++ List.replicate k 0, List.replicate (grow l.length (l.length + k)) 0⟩ := by
  unfold Slice.append
  have : ¬ (List.replicate k 0).length ≤ ([] : List Nat).length := by
    simp only [List.length_replicate, List.length_nil]; omega
  rw [if_neg this]
  simp [Slice.cap, Slice.len]

theorem Resize_eq (grow : Nat → Nat → Nat) (b : Slice) (m : Nat) :
    Resize grow b m = some ⟨(b.backing ++ List.replicate (m - b.cap) 0).take m,
      if m ≤ b.cap then b.backing.drop m else List.replicate (grow b.cap m) 0⟩ := by
  have hl : b.backing.length = b.cap := by simp [Slice.backing, Slice.cap]
  unfold Resize
  rw [Slice.slice_full]
  simp only [Option.bind_eq_bind, Option.some_bind]
  have hlen : (⟨b.backing, []⟩ : Slice).len = b.cap := hl
  rw [hlen]
  have hc : (⟨b.backing, []⟩ : Slice).cap = b.cap := by
    show b.backing.length + 0 = b.cap
    rw [Nat.add_zero, hl]
  by_cases hm : m ≤ b.cap
  · have hn : ¬ ((m : Int) - (b.cap : Int) > 0) := by omega
    rw [if_neg hn, if_pos hm]
    rw [Slice.slice_eq_some _ 0 m (le_refl _) (by omega) (by rw [hc]; omega)]
    have e : m - b.cap = 0 := by omega
    simp [Slice.backing, e]
  · have hn : ((m : Int) - (b.cap : Int) > 0) := by omega
    rw [if_pos hn, if_neg hm]
    have e : ((m : Int) - (b.cap : Int)).toNat = m - b.cap := by omega
    rw [e, Slice.append_full grow _ _ (by omega), hl]
    have e2 : b.cap + (m - b.cap) = m := by omega
    rw [e2]
    have hlen2 : (b.backing ++ List.replicate (m - b.cap) 0).length = m := by
      rw [List.length_append, List.length_replicate, hl]; omega
    have hc2 : ∀ sp : List Nat, m ≤
        (⟨b.backing ++ List.replicate (m - b.cap) 0, sp⟩ : Slice).cap := by
      intro sp
      show m ≤ (b.backing ++ List.replicate (m - b.cap) 0).length + sp.length
      omega
    rw [Slice.slice_eq_some _ 0 m (le_refl _) (by omega) (by exact_mod_cast hc2 _)]
    simp only [Slice.backing, Int.toNat_zero, List.drop_zero, Int.toNat_ofNat, Nat.sub_zero]
    have hb : b.data ++ b.spare = b.backing := rfl
    rw [hb]
    congr 2
    · rw [List.take_append_of_le_length (by omega), List.take_of_length_le (by omega)]
    · rw [List.drop_append_of_le_length (by omega), List.drop_of_length_le (by omega)]
      simp

theorem Resize_data_length (b : Slice) (m : Nat) :
    ((b.backing ++ List.replicate (m - b.cap) 0).take m).length = m := by
  have hl : b.backing.length = b.cap := by simp [Slice.backing, Slice.cap]
  rw [List.length_take, List.length_append, List.length_replicate, hl]
  omega

theorem Resize_data_take (b : Slice) (m : Nat) (h : b.len ≤ m) :
    ((b.backing ++ List.replicate (m - b.cap) 0).take m).take b.len = b.data := by
  rw [List.take_take, Nat.min_eq_left h, Slice.backing, List.append_assoc]
  exact List.take_left' rfl

theorem pad_list (v nn r : Nat) (W S' rand : List Nat) (hW : W.length = nn + r + 9)
    (hr : rand.length = r + 8) :
    List.take (nn + r + 8 + 1 + 1)
      (List.take (nn + 1) (v :: W ++ S') ++ rand ++ List.drop (nn + 1 + (r + 8)) (v :: W ++ S'))
      = v :: (List.take nn W ++ rand ++ List.drop (nn + r + 8) W) := by
  have a1 : List.take (nn + 1) (v :: W ++ S') = v :: List.take nn W := by
    rw [List.cons_append, List.take_succ_cons, List.take_append_of_le_length (by omega)]
  have a2 : List.drop (nn + 1 + (r + 8)) (v :: W ++ S') = List.drop (nn + r + 8) W ++ S' := by
    have e : nn + 1 + (r + 8) = (nn + r + 8) + 1 := by omega
    rw [e, List.cons_append, List.drop_succ_cons, List.drop_append_of_le_length (by omega)]
  rw [a1, a2, ← List.append_assoc]
  apply List.take_left'
  simp only [List.cons_append, List.length_cons, List.length_append, List.length_take,
    List.length_drop, hW, hr]
  omega

/-- The padding steps of `AddPadding` after `Resize`, on a resized buffer with
visible bytes `R` (of length `nn + r + 9`) and spare bytes `S`. -/
theorem AddPadding_core (grow : Nat → Nat → Nat) (r : Nat) (rnd : Nat → Nat) (nn : Nat)
    (R S : List Nat) (hR : R.length = nn + r + 9) :
    ∃ out, (do
      let b : Slice := ⟨R, S⟩
      let b1 ← b.slice 0 1
      let b := b1.append grow b.data
      let b ← b.set 0 (((r : Int) + 9).toNat % 256)
      let sub ← b.slice ((nn : Int) + 1) ((nn : Int) + ((r : Int) + 9))
      let sub := randRead rnd sub
      pure (b.writeBack ((nn : Int) + 1).toNat sub.data)) =
    some out ∧ out.data = ((r + 9) % 256) :: (R.take nn ++
      (List.range (r + 8)).map (fun i => rnd i % 256) ++ R.drop (nn + r + 8)) := by
  obtain ⟨x, R', rfl⟩ : ∃ x R', R = x :: R' := by
    cases R with
    | nil => simp at hR
    | cons x R' => exact ⟨x, R', rfl⟩
  have hR' : R'.length = nn + r + 8 := by simpa using hR
  have h1 : (⟨x :: R', S⟩ : Slice).slice 0 1 = some ⟨[x], R' ++ S⟩ := by
    rw [Slice.slice_eq_some _ 0 1 (le_refl _) (by omega)
      (by show (1 : Int) ≤ ((((x :: R').length + S.length : Nat)) : Int); simp; omega)]
    simp [Slice.backing]
  have h2 : ∃ S', (⟨[x], R' ++ S⟩ : Slice).append grow (x :: R') = ⟨x :: x :: R', S'⟩ := by
    unfold Slice.append
    split
    · exact ⟨_, rfl⟩
    · exact ⟨_, rfl⟩
  obtain ⟨S', h2⟩ := h2
  have h3 : (⟨x :: x :: R', S'⟩ : Slice).set 0 (((r : Int) + 9).toNat % 256) =
      some ⟨((r + 9) % 256) :: x :: R', S'⟩ := by
    unfold Slice.set
    have e : ((r : Int) + 9).toNat = r + 9 := by omega
    rw [if_pos ⟨le_refl _, by simp [Slice.len]; omega⟩, e]
    simp
  have hcap : ((⟨((r + 9) % 256) :: x :: R', S'⟩ : Slice).cap : Int) =
      (nn : Int) + r + 10 + S'.length := by
    show (((((r + 9) % 256) :: x :: R').length + S'.length : Nat) : Int) = _
    simp [hR']; omega
  have e1 : ((nn : Int) + 1).toNat = nn + 1 := by omega
  have e2 : ((nn : Int) + ((r : Int) + 9)).toNat = nn + r + 9 := by omega
  have h4 := Slice.slice_eq_some (⟨((r + 9) % 256) :: x :: R', S'⟩ : Slice)
    ((nn : Int) + 1) ((nn : Int) + ((r : Int) + 9)) (by omega) (by omega) (by rw [hcap]; omega)
  rw [e1, e2] at h4
  simp only [Option.bind_eq_bind, Option.some_bind, h1, h2, h3, h4, e1, Option.pure_def]
  refine ⟨_, rfl, ?_⟩
  have hsub : (List.take (nn + r + 9 - (nn + 1))
      (List.drop (nn + 1) (((r + 9) % 256) :: x :: R' ++ S'))).length = r + 8 := by
    simp [hR']; omega
  simp only [randRead, Slice.len, hsub, Slice.writeBack, List.length_map, List.length_range,
    Slice.backing, List.length_cons, hR']
  exact pad_list _ nn r (x :: R') S' _ hR (by simp)

theorem AddPadding_data (grow : Nat → Nat → Nat) (r : Nat) (rnd : Nat → Nat) (b : Slice) :
    ∃ out, AddPadding grow r rnd b = some out ∧
      out.data = ((r + 9) % 256) :: (b.data ++ (List.range (r + 8)).map (fun i => rnd i % 256) ++
        ((b.backing ++ List.replicate (b.len + r + 9 - b.cap) 0).take (b.len + r + 9)).drop
          (b.len + r + 8)) := by
  have hN : ((b.len : Int) + ((r : Int) + 9)) = ((b.len + r + 9 : Nat) : Int) := by
    push_cast; ring
  obtain ⟨out, h1, h2⟩ := AddPadding_core grow r rnd b.len
    ((b.backing ++ List.replicate (b.len + r + 9 - b.cap) 0).take (b.len + r + 9))
    (if b.len + r + 9 ≤ b.cap then b.backing.drop (b.len + r + 9)
      else List.replicate (grow b.cap (b.len + r + 9)) 0)
    (Resize_data_length b _)
  refine ⟨out, ?_, ?_⟩
  · unfold AddPadding
    simp only [Option.bind_eq_bind]
    rw [hN, Resize_eq]
    rw [← hN]
    simpa only [Option.bind_eq_bind, Option.some_bind] using h1
  · rw [h2, Resize_data_take b _ (by omega)]

/-- C1. Padding round trip: whatever the pad length `r + 9` the length source
gives (`r < 247`), whatever the random filler and the runtime's growth policy,
`AddPadding` succeeds and `CutPadding` of its result, with the result's own
length as declared length, returns no error and exactly the bytes of `b`. -/
theorem padding_round_trip (grow : Nat → Nat → Nat) (r : Nat) (rnd : Nat → Nat) (b : Slice)
    (hr : r < 247) :
    ∃ out, AddPadding grow r rnd b = some out ∧
      ∃ s, CutPadding out out.len = some (s, none) ∧ s.data = b.data := by
  obtain ⟨out, h1, h2⟩ := AddPadding_data grow r rnd b
  refine ⟨out, h1, ?_⟩
  have hp : (r + 9) % 256 = r + 9 := Nat.mod_eq_of_lt (by omega)
  rw [hp] at h2
  have hl : out.len = b.len + r + 10 := by
    have hb : b.backing.length = b.cap := by simp [Slice.backing, Slice.cap]
    simp only [Slice.len, h2, List.length_cons, List.length_append, List.length_map,
      List.length_range, List.length_drop, List.length_take, List.length_replicate, hb]
    omega
  obtain ⟨s, hs, -, -, hd, -⟩ := CutPadding_ok out (r + 9) _ out.len h2
    (by rw [hl]; push_cast; omega) (by rw [hl]; push_cast; omega)
  refine ⟨s, hs, ?_⟩
  rw [hd, hl]
  have e : (((b.len + r + 10 : Nat) : Int) - ((r + 9 : Nat) : Int) - 1).toNat = b.len := by
    push_cast; omega
  rw [e, List.append_assoc]
  exact List.take_left' rfl

theorem padding_round_trip_witness :
    ∃ out, AddPadding (fun _ _ => 0) 0 (fun i => i) ⟨[1, 2, 3], []⟩ = some out ∧
      ∃ s, CutPadding out out.len = some (s, none) ∧ s.data = [1, 2, 3] :=
  padding_round_trip (fun _ _ => 0) 0 (fun i => i) ⟨[1, 2, 3], []⟩ (by decide)

/-! ## Big-endian packing -/

theorem or_bytes_eq (b0 b1 b2 b3 : Nat) (h0 : b0 < 256) (h1 : b1 < 256) (h2 : b2 < 256)
    (h3 : b3 < 256) :
    ((b0 % 2 ^ 32) <<< 24) % 2 ^ 32 ||| ((b1 % 2 ^ 32) <<< 16) % 2 ^ 32 |||
      ((b2 % 2 ^ 32) <<< 8) % 2 ^ 32 ||| b3 % 2 ^ 32 = be32 b0 b1 b2 b3 := by
  have e0 : ((b0 % 2 ^ 32) <<< 24) % 2 ^ 32 = 2 ^ 24 * b0 := by
    rw [Nat.shiftLeft_eq]; omega
  have e1 : ((b1 % 2 ^ 32) <<< 16) % 2 ^ 32 = 2 ^ 16 * b1 := by
    rw [Nat.shiftLeft_eq]; omega
  have e2 : ((b2 % 2 ^ 32) <<< 8) % 2 ^ 32 = 2 ^ 8 * b2 := by
    rw [Nat.shiftLeft_eq]; omega
  have e3 : b3 % 2 ^ 32 = b3 := by omega
  rw [e0, e1, e2, e3, Nat.or_assoc, Nat.or_assoc]
  rw [← Nat.mul_add_lt_is_or (by omega) b2, ← Nat.mul_add_lt_is_or (by omega) b1,
    ← Nat.mul_add_lt_is_or (by omega) b0]
  unfold be32
  omega

theorem Slice.index_eq (s : Slice) (i : Nat) : s.index (i : Int) = s.data[i]? := by
  unfold Slice.index
  rw [if_pos (by omega)]
  rfl

theorem BytesToUint32_eq (s : Slice) (b0 b1 b2 b3 : Nat) (rest : List Nat)
    (h : s.data = b0 :: b1 :: b2 :: b3 :: rest)
    (h0 : b0 < 256) (h1 : b1 < 256) (h2 : b2 < 256) (h3 : b3 < 256) :
    BytesToUint32 s = some (be32 b0 b1 b2 b3) := by
  unfold BytesToUint32
  have i0 := Slice.index_eq s 0
  have i1 := Slice.index_eq s 1
  have i2 := Slice.index_eq s 2
  have i3 := Slice.index_eq s 3
  simp only [h, Nat.cast_ofNat, Nat.cast_zero, Nat.cast_one] at i0 i1 i2 i3
  simp only [Option.bind_eq_bind, i0, i1, i2, i3]
  simp only [List.getElem?_cons_zero, List.getElem?_cons_succ, Option.some_bind,
    Option.pure_def]
  rw [or_bytes_eq b0 b1 b2 b3 h0 h1 h2 h3]

theorem be32_bytes (n : Nat) (h : n < 2 ^ 32) :
    be32 ((n >>> 24) % 256) ((n >>> 16) % 256) ((n >>> 8) % 256) (n % 256) = n := by
  simp only [be32, Nat.shiftRight_eq_div_pow]
  omega

theorem mask31 (n : Nat) : n &&& ((1 <<< 31) - 1) = n % 2 ^ 31 := by
  rw [Nat.one_shiftLeft, Nat.and_pow_two_sub_one_eq_mod]

theorem Slice.append_data (grow : Nat → Nat → Nat) (s : Slice) (xs : List Nat) :
    (s.append grow xs).data = s.data ++ xs := by
  unfold Slice.append
  split <;> rfl

theorem Slice.slice_zero_zero (s : Slice) : s.slice 0 0 = some ⟨[], s.backing⟩ := by
  rw [Slice.slice_eq_some s 0 0 (le_refl _) (le_refl _) (by omega)]
  simp

/-! ## PRIORITY -/

theorem Priority.ReadFrame_short (pry : Priority) (fr : Frame) (h : fr.payload.len < 5) :
    pry.ReadFrame fr = some (pry, some GoError.ErrMissingBytes) := by
  unfold Priority.ReadFrame
  rw [if_pos h]
  rfl

theorem Priority.ReadFrame_long (pry : Priority) (fr : Frame) (b0 b1 b2 b3 b4 : Nat)
    (rest : List Nat) (h : fr.payload.data = b0 :: b1 :: b2 :: b3 :: b4 :: rest)
    (h0 : b0 < 256) (h1 : b1 < 256) (h2 : b2 < 256) (h3 : b3 < 256) :
    pry.ReadFrame fr = some (⟨be32 b0 b1 b2 b3 % 2 ^ 31, b4⟩, none) := by
  unfold Priority.ReadFrame
  have hl : ¬ fr.payload.len < 5 := by simp [Slice.len, h]
  rw [if_neg hl, BytesToUint32_eq fr.payload b0 b1 b2 b3 (b4 :: rest) h h0 h1 h2 h3]
  have i4 := Slice.index_eq fr.payload 4
  simp only [h, Nat.cast_ofNat] at i4
  simp only [Option.bind_eq_bind, Option.some_bind, i4, mask31, List.getElem?_cons_succ,
    List.getElem?_cons_zero, Option.pure_def]

/-- C7. `Priority.ReadFrame` returns `ErrMissingBytes` exactly when the payload
has fewer than 5 bytes; on a payload of at least 5 bytes it returns no error,
the stream is the big-endian value of the first four bytes with the top bit
cleared, and the weight is the fifth byte. It never panics. -/
theorem Priority_ReadFrame_spec (pry : Priority) (fr : Frame)
    (hb : ∀ x ∈ fr.payload.data, x < 256) :
    ∃ q e, pry.ReadFrame fr = some (q, e) ∧
      (e = some GoError.ErrMissingBytes ↔ fr.payload.len < 5) ∧
      (5 ≤ fr.payload.len → e = none ∧
        q.stream = be32 (fr.payload.data.getD 0 0) (fr.payload.data.getD 1 0)
          (fr.payload.data.getD 2 0) (fr.payload.data.getD 3 0) % 2 ^ 31 ∧
        q.weight = fr.payload.data.getD 4 0) := by
  by_cases h : fr.payload.len < 5
  · exact ⟨pry, _, Priority.ReadFrame_short pry fr h, by simp [h], fun h5 => by omega⟩
  · obtain ⟨b0, b1, b2, b3, b4, rest, hd⟩ :
        ∃ b0 b1 b2 b3 b4 rest, fr.payload.data = b0 :: b1 :: b2 :: b3 :: b4 :: rest := by
      match hd : fr.payload.data with
      | [] | [_] | [_, _] | [_, _, _] | [_, _, _, _] => simp [Slice.len, hd] at h
      | b0 :: b1 :: b2 :: b3 :: b4 :: rest => exact ⟨b0, b1, b2, b3, b4, rest, rfl⟩
    have hb0 : b0 < 256 := hb b0 (by simp [hd])
    have hb1 : b1 < 256 := hb b1 (by simp [hd])
    have hb2 : b2 < 256 := hb b2 (by simp [hd])
    have hb3 : b3 < 256 := hb b3 (by simp [hd])
    refine ⟨_, _, Priority.ReadFrame_long pry fr b0 b1 b2 b3 b4 rest hd hb0 hb1 hb2 hb3,
      by simp [h], fun _ => ⟨rfl, ?_, ?_⟩⟩
    · simp [hd]
    · simp [hd]

theorem Priority_ReadFrame_spec_witness :
    (∃ q e, Priority.ReadFrame ⟨9, 9⟩ ⟨4, 2, 0, 1, 16384, ⟨[0, 0, 0, 1], []⟩⟩ = some (q, e) ∧
      (e = some GoError.ErrMissingBytes ↔
        (⟨[0, 0, 0, 1], []⟩ : Slice).len < 5) ∧
      (5 ≤ (⟨[0, 0, 0, 1], []⟩ : Slice).len → e = none ∧
        q.stream = be32 (([0, 0, 0, 1] : List Nat).getD 0 0) (([0, 0, 0, 1] : List Nat).getD 1 0)
          (([0, 0, 0, 1] : List Nat).getD 2 0) (([0, 0, 0, 1] : List Nat).getD 3 0) % 2 ^ 31 ∧
        q.weight = ([0, 0, 0, 1] : List Nat).getD 4 0)) :=
  Priority_ReadFrame_spec ⟨9, 9⟩ ⟨4, 2, 0, 1, 16384, ⟨[0, 0, 0, 1], []⟩⟩ (by decide)

theorem Priority.WriteFrame_eq (grow : Nat → Nat → Nat) (pry : Priority) (fr : Frame) :
    ∃ fr', pry.WriteFrame grow fr = some fr' ∧ fr'.kind = FramePriority ∧
      fr'.flags = fr.flags ∧
      fr'.payload.data = [(pry.stream >>> 24) % 256, (pry.stream >>> 16) % 256,
        (pry.stream >>> 8) % 256, pry.stream % 256, pry.weight] := by
  unfold Priority.WriteFrame
  simp only [Frame.SetType, Slice.slice_zero_zero, Option.bind_eq_bind, Option.some_bind,
    Option.pure_def]
  refine ⟨_, rfl, rfl, rfl, ?_⟩
  simp [Slice.append_data, AppendUint32Bytes]

/-- C5. A `Priority` given `SetStream(s)` and `SetWeight(w)`, written with
`WriteFrame` into any envelope and read back with `ReadFrame` into any
`Priority`, has `Stream() = s mod 2^31` (the top bit cleared) and
`Weight() = w`; neither step fails. -/
theorem Priority_round_trip (grow : Nat → Nat → Nat) (s w : Nat) (p0 q : Priority)
    (fr : Frame) :
    ∃ fr', ((p0.SetStream s).SetWeight w).WriteFrame grow fr = some fr' ∧
      ∃ q', q.ReadFrame fr' = some (q', none) ∧
        q'.Stream = s % 2 ^ 31 ∧ q'.Weight = w := by
  obtain ⟨fr', h1, -, -, h2⟩ := Priority.WriteFrame_eq grow ((p0.SetStream s).SetWeight w) fr
  refine ⟨fr', h1, ?_⟩
  have hs : ((p0.SetStream s).SetWeight w).stream = s % 2 ^ 31 := by
    simp only [Priority.SetWeight, Priority.SetStream, mask31]
  have hw : ((p0.SetStream s).SetWeight w).weight = w := rfl
  rw [hs, hw] at h2
  have hlt : s % 2 ^ 31 < 2 ^ 32 := by omega
  refine ⟨_, Priority.ReadFrame_long q fr' _ _ _ _ w [] h2 (Nat.mod_lt _ (by norm_num))
    (Nat.mod_lt _ (by norm_num)) (Nat.mod_lt _ (by norm_num)) (Nat.mod_lt _ (by norm_num)),
    ?_, rfl⟩
  simp only [Priority.Stream, be32_bytes _ hlt]
  omega

/-! ## DATA -/

theorem Data.WriteFrame_nopad (grow : Nat → Nat → Nat) (r : Nat) (rnd : Nat → Nat)
    (data : Data) (fr : Frame) (hp : data.hasPadding = false) :
    data.WriteFrame grow r rnd fr = some (data,
      ((if data.endStream then (fr.SetType FrameData).AddFlag FlagEndStream
        else fr.SetType FrameData).SetPayload data.b).1) := by
  unfold Data.WriteFrame
  simp [hp]

theorem Data.ReadFrame_nopad (grow : Nat → Nat → Nat) (q : Data) (fr : Frame)
    (hp : fr.HasFlag FlagPadded = false) :
    q.ReadFrame grow fr = some ((⟨fr.HasFlag FlagEndStream, q.hasPadding,
      (⟨[], q.b.backing⟩ : Slice).append grow fr.payload.data⟩ : Data), none) := by
  unfold Data.ReadFrame
  simp [hp, Slice.slice_zero_zero, Frame.Payload]

/-- C4 as stated fails: a `Data` without padding whose bytes exceed the maximum
frame size of a fresh envelope is written without effect on the payload, the
rejection by `SetPayload` being dropped, and reading the envelope back yields
no bytes. -/
theorem Data_round_trip_counterexample :
    bigData.b.data ≠ [] ∧ bigData.hasPadding = false ∧ freshFrame.flags = 0 ∧
    ∃ fr' q', bigData.WriteFrame growExact 0 rndZero freshFrame = some (bigData, fr') ∧
      emptyData.ReadFrame growExact fr' = some (q', none) ∧
      q'.b.data = [] ∧ q'.b.data ≠ bigData.b.data := by
  have hlen : bigData.b.data.length = 16385 := List.length_replicate 16385 0
  have hbig : bigData.b.data ≠ [] := by
    intro h
    rw [h] at hlen
    exact absurd hlen (by decide)
  refine ⟨hbig, rfl, rfl, freshFrame.SetType FrameData, _, ?_, rfl, ?_, ?_⟩
  · rw [Data.WriteFrame_nopad _ _ _ _ _ rfl]
    have hlt : (freshFrame.SetType FrameData).maxLen < bigData.b.len := by
      show 16384 < bigData.b.data.length
      rw [hlen]
      decide
    have he : bigData.endStream = false := rfl
    simp only [he, Bool.false_eq_true, if_false, Frame.SetPayload, if_pos hlt]
  · rfl
  · intro h
    exact hbig h.symm

/-- C4, amended. For a `Data` with non-empty bytes, `has_padding = false` and
any `end_stream`, whose bytes do not exceed the maximum frame size of the
envelope, `WriteFrame` into an envelope with no flag set followed by
`ReadFrame` of that envelope into any `Data` yields the same bytes and the same
`end_stream`. -/
theorem Data_round_trip (grow : Nat → Nat → Nat) (r : Nat) (rnd : Nat → Nat)
    (data q : Data) (fr : Frame) (hne : data.b.data ≠ []) (hp : data.hasPadding = false)
    (hf : fr.flags = 0) (hmax : data.b.len ≤ fr.maxLen) :
    ∃ fr', data.WriteFrame grow r rnd fr = some (data, fr') ∧
      ∃ q', q.ReadFrame grow fr' = some (q', none) ∧
        q'.b.data = data.b.data ∧ q'.endStream = data.endStream := by
  have _ := hne
  refine ⟨_, Data.WriteFrame_nopad grow r rnd data fr hp, ?_⟩
  have hm : ¬ fr.maxLen < data.b.len := by omega
  cases he : data.endStream
  · simp only [Bool.false_eq_true, if_false, Frame.SetPayload, Frame.SetType, hm]
    refine ⟨_, Data.ReadFrame_nopad grow q _ ?_, ?_, ?_⟩
    · simp [Frame.HasFlag, hf, FlagPadded]
    · simp [Slice.append_data]
    · simp [Frame.HasFlag, hf, FlagEndStream]
  · simp only [if_true, Frame.SetPayload, Frame.SetType, Frame.AddFlag, hm, if_false]
    refine ⟨_, Data.ReadFrame_nopad grow q _ ?_, ?_, ?_⟩
    · simp [Frame.HasFlag, hf, FlagPadded, FlagEndStream]
    · simp [Slice.append_data]
    · simp [Frame.HasFlag, hf, FlagEndStream]

theorem Data_round_trip_witness :
    ∃ fr', Data.WriteFrame growExact 0 rndZero ⟨true, false, ⟨[104, 105], []⟩⟩ freshFrame =
        some (⟨true, false, ⟨[104, 105], []⟩⟩, fr') ∧
      ∃ q', emptyData.ReadFrame growExact fr' = some (q', none) ∧
        q'.b.data = [104, 105] ∧ q'.endStream = true :=
  Data_round_trip growExact 0 rndZero ⟨true, false, ⟨[104, 105], []⟩⟩ emptyData freshFrame
    (by decide) rfl rfl (by decide)

/-! ## HEADERS -/


theorem Slice.sliceFrom_data (s : Slice) (k : Nat) (hk : k ≤ s.len) :
    ∃ s', s.sliceFrom k = some s' ∧ s'.data = s.data.drop k := by
  unfold Slice.sliceFrom
  have hc : ((s.len : Nat) : Int) ≤ (s.cap : Int) := by
    simp only [Slice.len, Slice.cap]; omega
  rw [Slice.slice_eq_some s k s.len (by omega) (by omega) hc]
  refine ⟨_, rfl, ?_⟩
  simp only [Int.toNat_ofNat, Slice.backing, Slice.len]
  rw [List.drop_append_of_le_length (by simpa [Slice.len] using hk),
    List.take_append_of_le_length (by simp)]
  exact List.take_of_length_le (by simp)

theorem Headers.ReadFrame_priority (grow : Nat → Nat → Nat) (h : Headers) (fr : Frame)
    (b0 b1 b2 b3 b4 : Nat) (rest : List Nat)
    (hpad : fr.HasFlag FlagPadded = false) (hprio : fr.HasFlag FlagPriority = true)
    (hd : fr.payload.data = b0 :: b1 :: b2 :: b3 :: b4 :: rest)
    (h0 : b0 < 256) (h1 : b1 < 256) (h2 : b2 < 256) (h3 : b3 < 256) :
    ∃ h', h.ReadFrame grow fr = some (h', none) ∧
      h'.stream = be32 b0 b1 b2 b3 % 2 ^ 31 ∧ h'.weight = b4 ∧
      h'.rawHeaders.data = h.rawHeaders.data ++ rest ∧
      h'.endStream = fr.HasFlag FlagEndStream ∧ h'.endHeaders = fr.HasFlag FlagEndHeaders ∧
      h'.hasPadding = h.hasPadding := by
  have hl : ¬ fr.payload.len < 5 := by simp [Slice.len, hd]
  obtain ⟨s', hs1, hs2⟩ := Slice.sliceFrom_data fr.payload 5 (by simp [Slice.len, hd])
  have i4 := Slice.index_eq fr.payload 4
  simp only [hd, Nat.cast_ofNat, List.getElem?_cons_succ, List.getElem?_cons_zero] at i4
  simp only [Nat.cast_ofNat] at hs1
  unfold Headers.ReadFrame
  simp only [hpad, hprio, Frame.Payload, if_true, if_neg hl, Bool.false_eq_true, if_false,
    BytesToUint32_eq fr.payload b0 b1 b2 b3 (b4 :: rest) hd h0 h1 h2 h3, i4, hs1, mask31,
    Option.bind_eq_bind, Option.some_bind, Option.pure_def]
  refine ⟨_, rfl, rfl, rfl, ?_, rfl, rfl, rfl⟩
  simp [Slice.append_data, hs2, hd]

theorem Headers.ReadFrame_plain (grow : Nat → Nat → Nat) (h : Headers) (fr : Frame)
    (hpad : fr.HasFlag FlagPadded = false) (hprio : fr.HasFlag FlagPriority = false) :
    ∃ h', h.ReadFrame grow fr = some (h', none) ∧
      h'.stream = h.stream ∧ h'.weight = h.weight ∧
      h'.rawHeaders.data = h.rawHeaders.data ++ fr.payload.data ∧
      h'.endStream = fr.HasFlag FlagEndStream ∧ h'.endHeaders = fr.HasFlag FlagEndHeaders ∧
      h'.hasPadding = h.hasPadding := by
  unfold Headers.ReadFrame
  simp only [hpad, hprio, Frame.Payload, Bool.false_eq_true, if_false,
    Option.bind_eq_bind, Option.some_bind, Option.pure_def, if_true]
  exact ⟨_, rfl, rfl, rfl, Slice.append_data _ _ _, rfl, rfl, rfl⟩

theorem Headers.WriteFrame_plain (grow : Nat → Nat → Nat) (r : Nat) (rnd : Nat → Nat)
    (h : Headers) (fr : Frame) (hp : h.hasPadding = false)
    (h0 : h.stream = 0 ∨ h.weight = 0) :
    ∃ f, f = (if h.endHeaders then
        (if h.endStream then (fr.SetType FrameHeaders).AddFlag FlagEndStream
          else fr.SetType FrameHeaders).AddFlag FlagEndHeaders
        else (if h.endStream then (fr.SetType FrameHeaders).AddFlag FlagEndStream
          else fr.SetType FrameHeaders)) ∧
      h.WriteFrame grow r rnd fr =
        some (h, (f.SetPayload h.rawHeaders).1, (f.SetPayload h.rawHeaders).2) := by
  have hc : ¬ (h.stream > 0 ∧ h.weight > 0) := by omega
  refine ⟨_, rfl, ?_⟩
  unfold Headers.WriteFrame
  simp [hp, hc]

/-- C9. `Headers.ReadFrame` on an envelope without the PADDED flag. With
PRIORITY set and at least 5 payload bytes it returns no error, the stream is
the big-endian value of the first four bytes with the top bit cleared, the
weight is the fifth byte and the raw header block is its previous content
followed by `payload[5:]`. Without PRIORITY it returns no error and the raw
header block is its previous content followed by the whole payload. In both
cases `end_stream` and `end_headers` are the END_STREAM and END_HEADERS flags
of the envelope. -/
theorem Headers_ReadFrame_unpadded (grow : Nat → Nat → Nat) (h : Headers) (fr : Frame)
    (hpad : fr.HasFlag FlagPadded = false) (hb : ∀ x ∈ fr.payload.data, x < 256) :
    (fr.HasFlag FlagPriority = true → 5 ≤ fr.payload.len →
      ∃ h', h.ReadFrame grow fr = some (h', none) ∧
        h'.stream = be32 (fr.payload.data.getD 0 0) (fr.payload.data.getD 1 0)
          (fr.payload.data.getD 2 0) (fr.payload.data.getD 3 0) % 2 ^ 31 ∧
        h'.weight = fr.payload.data.getD 4 0 ∧
        h'.rawHeaders.data = h.rawHeaders.data ++ fr.payload.data.drop 5 ∧
        h'.endStream = fr.HasFlag FlagEndStream ∧
        h'.endHeaders = fr.HasFlag FlagEndHeaders) ∧
    (fr.HasFlag FlagPriority = false →
      ∃ h', h.ReadFrame grow fr = some (h', none) ∧
        h'.rawHeaders.data = h.rawHeaders.data ++ fr.payload.data ∧
        h'.endStream = fr.HasFlag FlagEndStream ∧
        h'.endHeaders = fr.HasFlag FlagEndHeaders) := by
  constructor
  · intro hprio h5
    obtain ⟨b0, b1, b2, b3, b4, rest, hd⟩ :
        ∃ b0 b1 b2 b3 b4 rest, fr.payload.data = b0 :: b1 :: b2 :: b3 :: b4 :: rest := by
      match hd : fr.payload.data with
      | [] | [_] | [_, _] | [_, _, _] | [_, _, _, _] => simp [Slice.len, hd] at h5
      | b0 :: b1 :: b2 :: b3 :: b4 :: rest => exact ⟨b0, b1, b2, b3, b4, rest, rfl⟩
    obtain ⟨h', e, e1, e2, e3, e4, e5, -⟩ := Headers.ReadFrame_priority grow h fr b0 b1 b2 b3 b4
      rest hpad hprio hd (hb b0 (by simp [hd])) (hb b1 (by simp [hd])) (hb b2 (by simp [hd]))
      (hb b3 (by simp [hd]))
    refine ⟨h', e, ?_, ?_, ?_, e4, e5⟩
    · simp [hd, e1]
    · simp [hd, e2]
    · simp [hd, e3]
  · intro hprio
    obtain ⟨h', e, -, -, e3, e4, e5, -⟩ := Headers.ReadFrame_plain grow h fr hpad hprio
    exact ⟨h', e, e3, e4, e5⟩

theorem Headers_ReadFrame_unpadded_witness :
    (∃ h', resetHeaders.ReadFrame growExact priorityOnlyFrame = some (h', none) ∧
        h'.stream = 0x7FFFFFFF ∧ h'.weight = 7 ∧ h'.rawHeaders.data = [] ∧
        h'.endStream = false ∧ h'.endHeaders = true) ∧
    (∃ h', prioHeaders.ReadFrame growExact plainHeadersFrame = some (h', none) ∧
        h'.rawHeaders.data =
          [0xAA, 0xBB, 0xCC, 0xDD, 0xEE, 0xFF, 0x11] ++ [0x82, 0x86, 0x84] ∧
        h'.endStream = true ∧ h'.endHeaders = false) :=
  ⟨(Headers_ReadFrame_unpadded growExact resetHeaders priorityOnlyFrame (by decide)
      (by decide)).1 (by decide) (by decide),
   (Headers_ReadFrame_unpadded growExact prioHeaders plainHeadersFrame (by decide)
      (by decide)).2 (by decide)⟩

/-- C8, evaluated. On an envelope with PADDED and PRIORITY whose raw payload has
five bytes and whose content after the removal of the padding has four,
`Headers.ReadFrame` tests the length of the raw payload, passes the test, and
panics on `payload[4]`: it does not return `ErrMissingBytes`. -/
theorem Headers_ReadFrame_padded_priority_panics :
    paddedPriorityFrame.HasFlag FlagPadded = true ∧
    paddedPriorityFrame.HasFlag FlagPriority = true ∧
    paddedPriorityFrame.payload.len = 5 ∧
    CutPadding paddedPriorityFrame.payload paddedPriorityFrame.Len =
      some (⟨[1, 2, 3, 4], []⟩, none) ∧
    resetHeaders.ReadFrame growExact paddedPriorityFrame = none := by
  decide

/-- C6, evaluated. A `Headers` with dependency `0xFFFFFFFF`, weight 7 and a
header block of seven bytes, written into a fresh envelope and read back into
a reset `Headers`, comes back with stream `0x2A000000` and weight 1: the
writer stores the stream identifier of the envelope at the indices 1 to 4 of
the header block and the weight at index 5, the reader takes the indices 0 to
4. With an empty header block the writer panics. -/
theorem Headers_round_trip_fails :
    prioHeaders.Stream = 0xFFFFFFFF ∧ prioHeaders.Weight = 7 ∧
    ((Headers.WriteFrame growExact 0 rndZero prioHeaders freshFrame).bind
      (fun x => Headers.ReadFrame growExact resetHeaders x.2.1)).map
        (fun y => (y.1.Stream, y.1.Weight, y.1.rawHeaders.data, y.2)) =
      some (0x2A000000, 1, [7, 0x11], none) ∧
    Headers.WriteFrame growExact 0 rndZero
      ((resetHeaders.SetStream 0xFFFFFFFF).SetWeight 7) freshFrame = none := by
  decide

/-- C10, evaluated. For a `Headers` with dependency `0xFFFFFFFF`, weight 7, no
padding and the header block `AA BB CC DD EE FF 11`, `WriteFrame` sets the
PRIORITY flag and makes the payload `AA 00 00 00 01 07 11`: the bytes 1 to 5 of
the header block are overwritten by the stream identifier of the envelope
(here 1) and the weight, nothing is put in front. The payload is not the
five-byte prefix `FF FF FF FF 07` followed by the header block. -/
theorem Headers_WriteFrame_overwrites :
    (Headers.WriteFrame growExact 0 rndZero prioHeaders freshFrame).map
        (fun x => (x.2.1.HasFlag FlagPriority, x.2.1.payload.data, x.2.2)) =
      some (true, [0xAA, 0, 0, 0, 1, 7, 0x11], none) ∧
    [0xAA, 0, 0, 0, 1, 7, 0x11] ≠
      [0xFF, 0xFF, 0xFF, 0xFF, 7] ++ prioHeaders.rawHeaders.data := by
  decide

/-! ## The layout of the padded buffer -/

theorem resized_getElem? (b : Slice) (r : Nat) :
    ((b.backing ++ List.replicate (b.len + r + 9 - b.cap) 0).take (b.len + r + 9))[b.len + r + 8]?
      = some (b.spare.getD (r + 8) 0) := by
  rw [List.getElem?_take_of_lt (by omega)]
  simp only [Slice.backing, Slice.len, Slice.cap, List.append_assoc]
  rw [List.getElem?_append_right (by omega)]
  have e : b.data.length + r + 8 - b.data.length = r + 8 := by omega
  rw [e]
  by_cases h : r + 8 < b.spare.length
  · rw [List.getElem?_append_left h, List.getD_eq_getElem?_getD]
    simp [List.getElem?_eq_getElem h]
  · have hn : b.spare[r + 8]? = none := List.getElem?_eq_none (by omega)
    rw [List.getElem?_append_right (by omega), List.getD_eq_getElem?_getD, hn,
      Option.getD_none, List.getElem?_replicate, if_pos (by omega)]

theorem resized_drop (b : Slice) (r : Nat) :
    ((b.backing ++ List.replicate (b.len + r + 9 - b.cap) 0).take (b.len + r + 9)).drop
      (b.len + r + 8) = [b.spare.getD (r + 8) 0] := by
  have hl := Resize_data_length b (b.len + r + 9)
  have h := resized_getElem? b r
  rw [List.getElem?_eq_some_iff] at h
  obtain ⟨hlt, hv⟩ := h
  rw [List.drop_eq_getElem_cons hlt, hv, List.drop_of_length_le (by omega)]

theorem AddPadding_closed (grow : Nat → Nat → Nat) (r : Nat) (rnd : Nat → Nat) (b : Slice) :
    ∃ out, AddPadding grow r rnd b = some out ∧
      out.data = ((r + 9) % 256) :: (b.data ++ (List.range (r + 8)).map (fun i => rnd i % 256) ++
        [b.spare.getD (r + 8) 0]) := by
  obtain ⟨out, h1, h2⟩ := AddPadding_data grow r rnd b
  exact ⟨out, h1, by rw [h2, resized_drop]⟩

theorem padded_getElem?_filler (v x : Nat) (d f : List Nat) (i : Nat) (hi : i < f.length) :
    (v :: (d ++ f ++ [x]))[d.length + 1 + i]? = f[i]? := by
  have e : d.length + 1 + i = (d.length + i) + 1 := by omega
  rw [e, List.getElem?_cons_succ, List.append_assoc,
    List.getElem?_append_right (by omega)]
  have e2 : d.length + i - d.length = i := by omega
  rw [e2, List.getElem?_append_left hi]

theorem padded_getElem?_last (v x : Nat) (d f : List Nat) :
    (v :: (d ++ f ++ [x]))[d.length + (f.length + 1)]? = some x := by
  have e : d.length + (f.length + 1) = (d.length + f.length) + 1 := by omega
  rw [e, List.getElem?_cons_succ, List.getElem?_append_right (by simp)]
  simp

/-- C13. For every input `b`, whatever its spare capacity, and every value
`r < 247` of the length source, the pad length `p = r + 9` lies in `[9, 255]`,
and the output of `AddPadding` has length `len(b) + p + 1`, first byte `p`, and
the bytes of `b` at the positions `1 .. len(b)`. -/
theorem AddPadding_layout (grow : Nat → Nat → Nat) (r : Nat) (rnd : Nat → Nat) (b : Slice)
    (hr : r < 247) :
    9 ≤ r + 9 ∧ r + 9 ≤ 255 ∧
    ∃ out, AddPadding grow r rnd b = some out ∧
      out.len = b.len + (r + 9) + 1 ∧
      out.data[0]? = some (r + 9) ∧
      (out.data.drop 1).take b.len = b.data := by
  obtain ⟨out, h1, h2⟩ := AddPadding_closed grow r rnd b
  have hp : (r + 9) % 256 = r + 9 := Nat.mod_eq_of_lt (by omega)
  rw [hp] at h2
  refine ⟨by omega, by omega, out, h1, ?_, ?_, ?_⟩
  · simp only [Slice.len, h2, List.length_cons, List.length_append, List.length_map,
      List.length_range, List.length_nil]
    omega
  · rw [h2, List.getElem?_cons_zero]
  · rw [h2, List.drop_succ_cons, List.drop_zero, List.append_assoc]
    exact List.take_left' rfl

theorem AddPadding_layout_witness :
    9 ≤ 0 + 9 ∧ 0 + 9 ≤ 255 ∧
    ∃ out, AddPadding growExact 0 rndZero ⟨[1, 2, 3], [7]⟩ = some out ∧
      out.len = (⟨[1, 2, 3], [7]⟩ : Slice).len + (0 + 9) + 1 ∧
      out.data[0]? = some (0 + 9) ∧
      (out.data.drop 1).take (⟨[1, 2, 3], [7]⟩ : Slice).len = [1, 2, 3] :=
  AddPadding_layout growExact 0 rndZero ⟨[1, 2, 3], [7]⟩ (by decide)

/-- C19. `AddPadding` with pad length `p = r + 9` hands to the secure random
source the `p - 1` positions `len(b)+1 .. len(b)+p-1` of its output, and no
other. The last byte, at position `len(b)+p`, is the byte the resized buffer
held at its end: the byte of the spare capacity of `b` at offset `p - 1` if
there is one, zero otherwise. Two runs that differ only in the random filler
therefore end in the same byte, which is zero when `b` has no spare capacity. -/
theorem AddPadding_filler_off_by_one (grow : Nat → Nat → Nat) (r : Nat) (b : Slice)
    (rnd1 rnd2 : Nat → Nat) :
    ∃ o1 o2, AddPadding grow r rnd1 b = some o1 ∧ AddPadding grow r rnd2 b = some o2 ∧
      o1.len = b.len + (r + 9) + 1 ∧ o2.len = b.len + (r + 9) + 1 ∧
      (∀ i, i < r + 8 → o1.data[b.len + 1 + i]? = some (rnd1 i % 256) ∧
        o2.data[b.len + 1 + i]? = some (rnd2 i % 256)) ∧
      o1.data[b.len + (r + 9)]? = some (b.spare.getD (r + 8) 0) ∧
      o2.data[b.len + (r + 9)]? = o1.data[b.len + (r + 9)]? ∧
      (b.spare = [] → o1.data[b.len + (r + 9)]? = some 0) := by
  obtain ⟨o1, h1, d1⟩ := AddPadding_closed grow r rnd1 b
  obtain ⟨o2, h2, d2⟩ := AddPadding_closed grow r rnd2 b
  have hl : ∀ rnd : Nat → Nat,
      ((List.range (r + 8)).map (fun i => rnd i % 256)).length = r + 8 := by
    intro rnd; simp
  have last : ∀ (o : Slice) (rnd : Nat → Nat),
      o.data = ((r + 9) % 256) :: (b.data ++ (List.range (r + 8)).map (fun i => rnd i % 256) ++
        [b.spare.getD (r + 8) 0]) →
      o.data[b.len + (r + 9)]? = some (b.spare.getD (r + 8) 0) := by
    intro o rnd hd
    have := padded_getElem?_last ((r + 9) % 256) (b.spare.getD (r + 8) 0) b.data
      ((List.range (r + 8)).map (fun i => rnd i % 256))
    rw [hl rnd] at this
    rw [hd]
    exact this
  have fill : ∀ (o : Slice) (rnd : Nat → Nat),
      o.data = ((r + 9) % 256) :: (b.data ++ (List.range (r + 8)).map (fun i => rnd i % 256) ++
        [b.spare.getD (r + 8) 0]) →
      ∀ i, i < r + 8 → o.data[b.len + 1 + i]? = some (rnd i % 256) := by
    intro o rnd hd i hi
    rw [hd, Slice.len, padded_getElem?_filler _ _ _ _ i (by rw [hl rnd]; exact hi)]
    simp [hi]
  have len : ∀ (o : Slice) (rnd : Nat → Nat),
      o.data = ((r + 9) % 256) :: (b.data ++ (List.range (r + 8)).map (fun i => rnd i % 256) ++
        [b.spare.getD (r + 8) 0]) → o.len = b.len + (r + 9) + 1 := by
    intro o rnd hd
    simp only [Slice.len, hd, List.length_cons, List.length_append, List.length_map,
      List.length_range, List.length_nil]
    omega
  refine ⟨o1, o2, h1, h2, len o1 rnd1 d1, len o2 rnd2 d2,
    fun i hi => ⟨fill o1 rnd1 d1 i hi, fill o2 rnd2 d2 i hi⟩, last o1 rnd1 d1, ?_, ?_⟩
  · rw [last o1 rnd1 d1, last o2 rnd2 d2]
  · intro hs
    rw [last o1 rnd1 d1, hs]
    rfl

/-! ## `Resize` -/

theorem resized_getElem?_ge (b : Slice) (n i : Nat) (h1 : b.len ≤ i) (h2 : i < n) :
    ((b.backing ++ List.replicate (n - b.cap) 0).take n)[i]? =
      some (b.spare.getD (i - b.len) 0) := by
  rw [List.getElem?_take_of_lt h2]
  simp only [Slice.backing, Slice.len, Slice.cap, List.append_assoc] at *
  rw [List.getElem?_append_right h1]
  by_cases h : i - b.data.length < b.spare.length
  · rw [List.getElem?_append_left h, List.getD_eq_getElem?_getD]
    simp [List.getElem?_eq_getElem h]
  · have hn : b.spare[i - b.data.length]? = none := List.getElem?_eq_none (by omega)
    rw [List.getElem?_append_right (by omega), List.getD_eq_getElem?_getD, hn,
      Option.getD_none, List.getElem?_replicate, if_pos (by omega)]

/-- C18 as stated fails: a buffer of length 1 whose backing array holds the
byte 7 behind it, resized to the length 2, shows that 7 at position 1. -/
theorem Resize_zero_fill_counterexample :
    (⟨[1], [7]⟩ : Slice).len ≤ 2 ∧
    ∃ out, Resize growExact ⟨[1], [7]⟩ 2 = some out ∧ out.len = 2 ∧
      out.data.take 1 = [1] ∧ out.data[1]? = some 7 := by
  decide

/-- C18, amended. For every buffer `b` and every target `n ≥ len(b)`,
`Resize(b, n)` has length `n`, its first `len(b)` bytes are those of `b`, and
the byte at a position `i` of `len(b) .. n-1` is the byte the backing array of
`b` holds at `i` when `i < cap(b)` and zero when `i ≥ cap(b)`. All these bytes
are zero when `b` has no spare capacity. -/
theorem Resize_contract (grow : Nat → Nat → Nat) (b : Slice) (n : Nat) (h : b.len ≤ n) :
    ∃ out, Resize grow b n = some out ∧ out.len = n ∧
      out.data.take b.len = b.data ∧
      (∀ i, b.len ≤ i → i < n → i < b.cap → out.data[i]? = b.spare[i - b.len]?) ∧
      (∀ i, b.cap ≤ i → i < n → out.data[i]? = some 0) ∧
      (b.spare = [] → ∀ i, b.len ≤ i → i < n → out.data[i]? = some 0) := by
  refine ⟨_, Resize_eq grow b n, Resize_data_length b n, Resize_data_take b n h, ?_, ?_, ?_⟩
  · intro i h1 h2 h3
    have hlt : i - b.len < b.spare.length := by
      simp only [Slice.len, Slice.cap] at *; omega
    rw [resized_getElem?_ge b n i h1 h2, List.getD_eq_getElem?_getD,
      List.getElem?_eq_getElem hlt]
    rfl
  · intro i h1 h2
    have hn : b.spare[i - b.len]? = none :=
      List.getElem?_eq_none (by simp only [Slice.len, Slice.cap] at *; omega)
    rw [resized_getElem?_ge b n i (by simp only [Slice.len, Slice.cap] at *; omega) h2,
      List.getD_eq_getElem?_getD, hn]
    rfl
  · intro hs i h1 h2
    rw [resized_getElem?_ge b n i h1 h2, hs]
    rfl

theorem Resize_contract_witness :
    ∃ out, Resize growExact ⟨[1, 2], [7]⟩ ((5 : Nat) : Int) = some out ∧ out.len = 5 ∧
      out.data.take (⟨[1, 2], [7]⟩ : Slice).len = [1, 2] ∧
      (∀ i, (⟨[1, 2], [7]⟩ : Slice).len ≤ i → i < 5 → i < (⟨[1, 2], [7]⟩ : Slice).cap →
        out.data[i]? = ([7] : List Nat)[i - (⟨[1, 2], [7]⟩ : Slice).len]?) ∧
      (∀ i, (⟨[1, 2], [7]⟩ : Slice).cap ≤ i → i < 5 → out.data[i]? = some 0) ∧
      (([7] : List Nat) = [] →
        ∀ i, (⟨[1, 2], [7]⟩ : Slice).len ≤ i → i < 5 → out.data[i]? = some 0) :=
  Resize_contract growExact ⟨[1, 2], [7]⟩ 5 (by decide)

/-! ## `CutPadding` with the length of the payload as declared length -/

/-- C20. For a non-empty payload with first byte `p`, `CutPadding` with the
declared length `L = len(payload)` does not panic; it returns an error exactly
when `p ≥ L`, and otherwise the slice `payload[1 : L-p]`, whose upper bound is
at most `len(payload)` and whose length is `L - p - 1`. -/
theorem CutPadding_declared_len (payload : Slice) (p : Nat) (rest : List Nat)
    (hp : payload.data = p :: rest) :
    ∃ s e, CutPadding payload payload.len = some (s, e) ∧
      (e ≠ none ↔ payload.len ≤ p) ∧
      (p < payload.len → e = none ∧
        payload.slice 1 ((payload.len : Int) - p) = some s ∧
        (payload.len : Int) - p ≤ payload.len ∧
        s.data = (payload.data.take (payload.len - p)).drop 1 ∧
        s.len = payload.len - p - 1) := by
  by_cases h : payload.len ≤ p
  · refine ⟨Slice.nil, some (GoError.outOfRange payload.len
        (wrap64 (wrap64 ((payload.len : Int) - p) - 1))),
      ?_, by simp [h], fun hlt => by omega⟩
    unfold CutPadding
    rw [Slice.index_zero_cons payload p rest hp]
    have hc : (payload.len : Int) < (payload.len : Int) - p - 1 ∨
        (payload.len : Int) - p < 1 := Or.inr (by omega)
    simp only [Option.bind_eq_bind, Option.some_bind, if_pos hc, Option.pure_def]
  · obtain ⟨s, hs, hsl, hd, -, hl⟩ := CutPadding_ok payload p rest payload.len hp
      (by omega) (by omega)
    refine ⟨s, none, hs, by simp; omega, fun _ => ⟨rfl, hsl, by omega, ?_, by omega⟩⟩
    rw [hd]
    congr 2
    omega

theorem CutPadding_declared_len_witness :
    ∃ s e, CutPadding ⟨[2, 7, 8, 0, 0], []⟩ (⟨[2, 7, 8, 0, 0], []⟩ : Slice).len = some (s, e) ∧
      (e ≠ none ↔ (⟨[2, 7, 8, 0, 0], []⟩ : Slice).len ≤ 2) ∧
      (2 < (⟨[2, 7, 8, 0, 0], []⟩ : Slice).len → e = none ∧
        (⟨[2, 7, 8, 0, 0], []⟩ : Slice).slice 1
          (((⟨[2, 7, 8, 0, 0], []⟩ : Slice).len : Int) - (2 : Nat)) = some s ∧
        ((⟨[2, 7, 8, 0, 0], []⟩ : Slice).len : Int) - (2 : Nat) ≤
          (⟨[2, 7, 8, 0, 0], []⟩ : Slice).len ∧
        s.data = (([2, 7, 8, 0, 0] : List Nat).take
          ((⟨[2, 7, 8, 0, 0], []⟩ : Slice).len - 2)).drop 1 ∧
        s.len = (⟨[2, 7, 8, 0, 0], []⟩ : Slice).len - 2 - 1) :=
  CutPadding_declared_len ⟨[2, 7, 8, 0, 0], []⟩ 2 [7, 8, 0, 0] rfl

/-! ## The pools -/

theorem poolGet_put {α : Type} (pool : List α) (x new : α) :
    poolGet (poolPut pool x) 0 new = (x, pool) := by
  simp [poolGet, poolPut]

/-- C14. An instance in any state that is released and then handed out again by
the pool comes back reset: a `Data` with `end_stream = false`,
`has_padding = false` and an empty buffer, a `Headers` with these and
`end_headers = false`, `stream = 0`, `weight = 0` and an empty header block, a
`Priority` with `stream = 0` and `weight = 0`. The buffers keep their backing
array. -/
theorem pool_release_acquire_reset (dpool : List Data) (d : Data) (hpool : List Headers)
    (h : Headers) (ppool : List Priority) (p : Priority) :
    (∃ d', AcquireData (ReleaseData dpool d) 0 = some (d', dpool) ∧
      d'.endStream = false ∧ d'.hasPadding = false ∧ d'.b.len = 0 ∧ d'.b.cap = d.b.cap) ∧
    (∃ h', AcquireHeaders (ReleaseHeaders hpool h) 0 = some (h', hpool) ∧
      h'.endStream = false ∧ h'.hasPadding = false ∧ h'.endHeaders = false ∧
      h'.stream = 0 ∧ h'.weight = 0 ∧ h'.rawHeaders.len = 0 ∧
      h'.rawHeaders.cap = h.rawHeaders.cap) ∧
    (∃ p', AcquirePriority (ReleasePriority ppool p) 0 = (p', ppool) ∧
      p'.stream = 0 ∧ p'.weight = 0) := by
  refine ⟨⟨⟨false, false, ⟨[], d.b.backing⟩⟩, ?_, rfl, rfl, rfl, ?_⟩,
    ⟨⟨false, 0, 0, false, false, ⟨[], h.rawHeaders.backing⟩⟩, ?_, rfl, rfl, rfl, rfl, rfl, rfl,
      ?_⟩,
    ⟨⟨0, 0⟩, poolGet_put _ _ _, rfl, rfl⟩⟩
  · simp only [AcquireData, ReleaseData, poolGet_put, Data.Reset, Slice.slice_zero_zero,
      Option.bind_eq_bind, Option.some_bind, Option.pure_def]
  · simp [Slice.cap, Slice.backing]
  · simp only [AcquireHeaders, ReleaseHeaders, poolGet_put, Headers.Reset,
      Slice.slice_zero_zero, Option.bind_eq_bind, Option.some_bind, Option.pure_def]
  · simp [Slice.cap, Slice.backing]

/-! ## Packing and unpacking -/

theorem Slice.set_eq_some (s : Slice) (i v : Nat) (h : i < s.len) :
    s.set (i : Int) v = some ⟨s.data.set i v, s.spare⟩ := by
  unfold Slice.set
  rw [if_pos ⟨by omega, by omega⟩]
  rfl

theorem Uint32ToBytes_eq (s : Slice) (n x0 x1 x2 x3 : Nat) (rest : List Nat)
    (h : s.data = x0 :: x1 :: x2 :: x3 :: rest) :
    Uint32ToBytes s n = some ⟨(n >>> 24) % 256 :: (n >>> 16) % 256 :: (n >>> 8) % 256 ::
      n % 256 :: rest, s.spare⟩ := by
  obtain ⟨d, sp⟩ := s
  simp only at h
  subst h
  have i3 := Slice.index_eq ⟨x0 :: x1 :: x2 :: x3 :: rest, sp⟩ 3
  have s0 := fun (l : List Nat) (v : Nat) (hl : 0 < (⟨l, sp⟩ : Slice).len) =>
    Slice.set_eq_some ⟨l, sp⟩ 0 v hl
  have s1 := fun (l : List Nat) (v : Nat) (hl : 1 < (⟨l, sp⟩ : Slice).len) =>
    Slice.set_eq_some ⟨l, sp⟩ 1 v hl
  have s2 := fun (l : List Nat) (v : Nat) (hl : 2 < (⟨l, sp⟩ : Slice).len) =>
    Slice.set_eq_some ⟨l, sp⟩ 2 v hl
  have s3 := fun (l : List Nat) (v : Nat) (hl : 3 < (⟨l, sp⟩ : Slice).len) =>
    Slice.set_eq_some ⟨l, sp⟩ 3 v hl
  simp only [Nat.cast_ofNat, Nat.cast_zero, Nat.cast_one] at i3 s0 s1 s2 s3
  unfold Uint32ToBytes
  rw [i3]
  simp only [List.getElem?_cons_succ, List.getElem?_cons_zero, Option.bind_eq_bind,
    Option.some_bind]
  rw [s0 _ _ (by simp [Slice.len])]
  simp only [Option.some_bind, List.set_cons_zero]
  rw [s1 _ _ (by simp [Slice.len])]
  simp only [Option.some_bind, List.set_cons_zero, List.set_cons_succ]
  rw [s2 _ _ (by simp [Slice.len])]
  simp only [Option.some_bind, List.set_cons_zero, List.set_cons_succ]
  rw [s3 _ _ (by simp [Slice.len])]
  simp only [List.set_cons_zero, List.set_cons_succ]

theorem Uint24ToBytes_eq (s : Slice) (n x0 x1 x2 : Nat) (rest : List Nat)
    (h : s.data = x0 :: x1 :: x2 :: rest) :
    Uint24ToBytes s n = some ⟨(n >>> 16) % 256 :: (n >>> 8) % 256 :: n % 256 :: rest,
      s.spare⟩ := by
  obtain ⟨d, sp⟩ := s
  simp only at h
  subst h
  have i2 := Slice.index_eq ⟨x0 :: x1 :: x2 :: rest, sp⟩ 2
  have s0 := fun (l : List Nat) (v : Nat) (hl : 0 < (⟨l, sp⟩ : Slice).len) =>
    Slice.set_eq_some ⟨l, sp⟩ 0 v hl
  have s1 := fun (l : List Nat) (v : Nat) (hl : 1 < (⟨l, sp⟩ : Slice).len) =>
    Slice.set_eq_some ⟨l, sp⟩ 1 v hl
  have s2 := fun (l : List Nat) (v : Nat) (hl : 2 < (⟨l, sp⟩ : Slice).len) =>
    Slice.set_eq_some ⟨l, sp⟩ 2 v hl
  simp only [Nat.cast_ofNat, Nat.cast_zero, Nat.cast_one] at i2 s0 s1 s2
  unfold Uint24ToBytes
  rw [i2]
  simp only [List.getElem?_cons_succ, List.getElem?_cons_zero, Option.bind_eq_bind,
    Option.some_bind]
  rw [s0 _ _ (by simp [Slice.len])]
  simp only [Option.some_bind, List.set_cons_zero]
  rw [s1 _ _ (by simp [Slice.len])]
  simp only [Option.some_bind, List.set_cons_zero, List.set_cons_succ]
  rw [s2 _ _ (by simp [Slice.len])]
  simp only [List.set_cons_zero, List.set_cons_succ]

theorem or_bytes24_eq (b0 b1 b2 : Nat) (h0 : b0 < 256) (h1 : b1 < 256) (h2 : b2 < 256) :
    ((b0 % 2 ^ 32) <<< 16) % 2 ^ 32 ||| ((b1 % 2 ^ 32) <<< 8) % 2 ^ 32 ||| b2 % 2 ^ 32 =
      b0 * 2 ^ 16 + b1 * 2 ^ 8 + b2 := by
  have e0 : ((b0 % 2 ^ 32) <<< 16) % 2 ^ 32 = 2 ^ 16 * b0 := by
    rw [Nat.shiftLeft_eq]; omega
  have e1 : ((b1 % 2 ^ 32) <<< 8) % 2 ^ 32 = 2 ^ 8 * b1 := by
    rw [Nat.shiftLeft_eq]; omega
  have e2 : b2 % 2 ^ 32 = b2 := by omega
  rw [e0, e1, e2, Nat.or_assoc]
  rw [← Nat.mul_add_lt_is_or (by omega) b1, ← Nat.mul_add_lt_is_or (by omega) b0]
  omega

theorem BytesToUint24_eq (s : Slice) (b0 b1 b2 : Nat) (rest : List Nat)
    (h : s.data = b0 :: b1 :: b2 :: rest) (h0 : b0 < 256) (h1 : b1 < 256) (h2 : b2 < 256) :
    BytesToUint24 s = some (b0 * 2 ^ 16 + b1 * 2 ^ 8 + b2) := by
  unfold BytesToUint24
  have i0 := Slice.index_eq s 0
  have i1 := Slice.index_eq s 1
  have i2 := Slice.index_eq s 2
  simp only [h, Nat.cast_ofNat, Nat.cast_zero, Nat.cast_one] at i0 i1 i2
  simp only [Option.bind_eq_bind, i0, i1, i2]
  simp only [List.getElem?_cons_zero, List.getElem?_cons_succ, Option.some_bind,
    Option.pure_def]
  rw [or_bytes24_eq b0 b1 b2 h0 h1 h2]

/-- C16. For `n < 2^32` and a buffer of at least 4 bytes, `Uint32ToBytes` does
not panic, `BytesToUint32` of the buffer it leaves returns `n`, byte 0 is the
most significant byte of `n`, the bytes from index 4 on are unchanged, and
`AppendUint32Bytes(dst, n)` is `dst` followed by the same four bytes. For
`m < 2^24` and a buffer of at least 3 bytes, `BytesToUint24` after
`Uint24ToBytes` returns `m`. -/
theorem pack_unpack_round_trip (grow : Nat → Nat → Nat) (n m : Nat) (buf buf3 dst : Slice)
    (hn : n < 2 ^ 32) (hbuf : 4 ≤ buf.len) (hm : m < 2 ^ 24) (hbuf3 : 3 ≤ buf3.len) :
    (∃ buf', Uint32ToBytes buf n = some buf' ∧ BytesToUint32 buf' = some n ∧
      buf'.data[0]? = some (n / 2 ^ 24) ∧ buf'.len = buf.len ∧
      buf'.data.drop 4 = buf.data.drop 4 ∧
      (AppendUint32Bytes grow dst n).data = dst.data ++ buf'.data.take 4) ∧
    (∃ b3, Uint24ToBytes buf3 m = some b3 ∧ BytesToUint24 b3 = some m ∧
      b3.data.drop 3 = buf3.data.drop 3) := by
  constructor
  · obtain ⟨x0, x1, x2, x3, rest, hd⟩ :
        ∃ x0 x1 x2 x3 rest, buf.data = x0 :: x1 :: x2 :: x3 :: rest := by
      match hd : buf.data with
      | [] | [_] | [_, _] | [_, _, _] => simp [Slice.len, hd] at hbuf
      | x0 :: x1 :: x2 :: x3 :: rest => exact ⟨x0, x1, x2, x3, rest, rfl⟩
    refine ⟨_, Uint32ToBytes_eq buf n x0 x1 x2 x3 rest hd, ?_, ?_, ?_, ?_, ?_⟩
    · rw [BytesToUint32_eq _ _ _ _ _ rest rfl (Nat.mod_lt _ (by norm_num))
        (Nat.mod_lt _ (by norm_num)) (Nat.mod_lt _ (by norm_num)) (Nat.mod_lt _ (by norm_num)),
        be32_bytes n hn]
    · simp only [List.getElem?_cons_zero, Nat.shiftRight_eq_div_pow]
      congr 1
      omega
    · simp [Slice.len, hd]
    · simp [hd]
    · simp [AppendUint32Bytes, Slice.append_data]
  · obtain ⟨x0, x1, x2, rest, hd⟩ : ∃ x0 x1 x2 rest, buf3.data = x0 :: x1 :: x2 :: rest := by
      match hd : buf3.data with
      | [] | [_] | [_, _] => simp [Slice.len, hd] at hbuf3
      | x0 :: x1 :: x2 :: rest => exact ⟨x0, x1, x2, rest, rfl⟩
    refine ⟨_, Uint24ToBytes_eq buf3 m x0 x1 x2 rest hd, ?_, ?_⟩
    · rw [BytesToUint24_eq _ _ _ _ rest rfl (Nat.mod_lt _ (by norm_num))
        (Nat.mod_lt _ (by norm_num)) (Nat.mod_lt _ (by norm_num))]
      simp only [Nat.shiftRight_eq_div_pow]
      congr 1
      omega
    · simp [hd]

theorem pack_unpack_round_trip_witness :
    (∃ buf', Uint32ToBytes ⟨[0, 0, 0, 0, 9], []⟩ 0x01020304 = some buf' ∧
      BytesToUint32 buf' = some 0x01020304 ∧
      buf'.data[0]? = some (0x01020304 / 2 ^ 24) ∧
      buf'.len = (⟨[0, 0, 0, 0, 9], []⟩ : Slice).len ∧
      buf'.data.drop 4 = ([0, 0, 0, 0, 9] : List Nat).drop 4 ∧
      (AppendUint32Bytes growExact ⟨[5], []⟩ 0x01020304).data = [5] ++ buf'.data.take 4) ∧
    (∃ b3, Uint24ToBytes ⟨[0, 0, 0], []⟩ 0x010203 = some b3 ∧
      BytesToUint24 b3 = some 0x010203 ∧
      b3.data.drop 3 = ([0, 0, 0] : List Nat).drop 3) :=
  pack_unpack_round_trip growExact 0x01020304 0x010203 ⟨[0, 0, 0, 0, 9], []⟩ ⟨[0, 0, 0], []⟩
    ⟨[5], []⟩ (by decide) (by decide) (by decide) (by decide)

/-! ## `EqualsFold` -/

theorem EqualsFold.loop_eq (a b : Slice) (hab : a.len = b.len) :
    ∀ k i, i + k = a.len → EqualsFold.loop a b i k =
      some (decide ((a.data.drop i).map (fun c => c ||| 0x20) =
        (b.data.drop i).map (fun c => c ||| 0x20))) := by
  intro k
  induction k with
  | zero =>
    intro i hi
    have ha : a.data.drop i = [] := List.drop_of_length_le (by simp only [Slice.len] at hi; omega)
    have hb : b.data.drop i = [] :=
      List.drop_of_length_le (by simp only [Slice.len] at hi hab; omega)
    simp [EqualsFold.loop, ha, hb]
  | succ k ih =>
    intro i hi
    have hia : i < a.data.length := by simp only [Slice.len] at hi; omega
    have hib : i < b.data.length := by simp only [Slice.len] at hi hab; omega
    have ea : a.index (i : Int) = some a.data[i] := by
      rw [Slice.index_eq, List.getElem?_eq_getElem hia]
    have eb : b.index (i : Int) = some b.data[i] := by
      rw [Slice.index_eq, List.getElem?_eq_getElem hib]
    rw [List.drop_eq_getElem_cons hia, List.drop_eq_getElem_cons hib]
    simp only [EqualsFold.loop, ea, eb, Option.bind_eq_bind, Option.some_bind, List.map_cons,
      List.cons.injEq]
    by_cases hc : a.data[i] ||| 0x20 = b.data[i] ||| 0x20
    · rw [if_neg (by simpa using hc), ih (i + 1) (by omega)]
      simp [hc]
    · rw [if_pos (by simpa using hc)]
      simp [hc]

theorem EqualsFold_eq (a b : Slice) :
    EqualsFold a b = some (decide (a.data.map (fun c => c ||| 0x20) =
      b.data.map (fun c => c ||| 0x20))) := by
  unfold EqualsFold
  by_cases h : a.len = b.len
  · simp only [ne_eq, h, not_true_eq_false, if_false]
    have := EqualsFold.loop_eq a b h a.len 0 (by omega)
    simp only [List.drop_zero] at this
    rw [← h, this]
  · have hne : a.data.map (fun c => c ||| 0x20) ≠ b.data.map (fun c => c ||| 0x20) := by
      intro he
      have := congrArg List.length he
      simp only [List.length_map] at this
      exact h this
    simp [h, hne]

theorem upper_or (c : Nat) (h1 : 0x41 ≤ c) (h2 : c ≤ 0x5A) : c ||| 0x20 = c + 0x20 := by
  interval_cases c <;> rfl

theorem lower_or (c : Nat) (h1 : 0x61 ≤ c) (h2 : c ≤ 0x7A) : c ||| 0x20 = c := by
  interval_cases c <;> rfl

theorem or_of_asciiLower (c d : Nat) (h : asciiLower c = asciiLower d) :
    c ||| 0x20 = d ||| 0x20 := by
  unfold asciiLower at h
  by_cases hc : 0x41 ≤ c ∧ c ≤ 0x5A <;> by_cases hd : 0x41 ≤ d ∧ d ≤ 0x5A
  · rw [if_pos hc, if_pos hd] at h
    have : c = d := by omega
    rw [this]
  · rw [if_pos hc, if_neg hd] at h
    rw [upper_or c hc.1 hc.2, h, lower_or d (by omega) (by omega)]
  · rw [if_neg hc, if_pos hd] at h
    rw [upper_or d hd.1 hd.2, ← h, lower_or c (by omega) (by omega)]
  · rw [if_neg hc, if_neg hd] at h
    rw [h]

theorem asciiLower_of_or (c d : Nat) (h : c ||| 0x20 = d ||| 0x20)
    (hc : isAsciiLetter c = true ∨ c ||| 0x20 = c)
    (hd : isAsciiLetter d = true ∨ d ||| 0x20 = d) : asciiLower c = asciiLower d := by
  have key : ∀ x, (isAsciiLetter x = true ∨ x ||| 0x20 = x) →
      ((0x41 ≤ x ∧ x ≤ 0x5A) ∧ x ||| 0x20 = x + 0x20 ∧ asciiLower x = x + 0x20) ∨
      (¬ (0x41 ≤ x ∧ x ≤ 0x5A) ∧ x ||| 0x20 = x ∧ asciiLower x = x) := by
    intro x hx
    by_cases hu : 0x41 ≤ x ∧ x ≤ 0x5A
    · exact Or.inl ⟨hu, upper_or x hu.1 hu.2, by simp [asciiLower, hu]⟩
    · refine Or.inr ⟨hu, ?_, by simp only [asciiLower, if_neg hu]⟩
      rcases hx with hx | hx
      · simp only [isAsciiLetter, decide_eq_true_eq] at hx
        exact lower_or x (by omega) (by omega)
      · exact hx
  rcases key c hc with ⟨-, oc, lc⟩ | ⟨-, oc, lc⟩ <;>
    rcases key d hd with ⟨-, od, ld⟩ | ⟨-, od, ld⟩ <;>
    rw [lc, ld] <;> rw [oc, od] at h <;> exact h

theorem map_or_of_map_asciiLower : ∀ l1 l2 : List Nat,
    l1.map asciiLower = l2.map asciiLower →
    l1.map (fun c => c ||| 0x20) = l2.map (fun c => c ||| 0x20)
  | [], [], _ => rfl
  | [], _ :: _, h => by simp at h
  | _ :: _, [], h => by simp at h
  | c :: l1, d :: l2, h => by
    simp only [List.map_cons, List.cons.injEq] at h ⊢
    exact ⟨or_of_asciiLower c d h.1, map_or_of_map_asciiLower l1 l2 h.2⟩

theorem map_asciiLower_of_map_or : ∀ l1 l2 : List Nat,
    (∀ c ∈ l1, isAsciiLetter c = true ∨ c ||| 0x20 = c) →
    (∀ c ∈ l2, isAsciiLetter c = true ∨ c ||| 0x20 = c) →
    l1.map (fun c => c ||| 0x20) = l2.map (fun c => c ||| 0x20) →
    l1.map asciiLower = l2.map asciiLower
  | [], [], _, _, _ => rfl
  | [], _ :: _, _, _, h => by simp at h
  | _ :: _, [], _, _, h => by simp at h
  | c :: l1, d :: l2, h1, h2, h => by
    simp only [List.map_cons, List.cons.injEq] at h ⊢
    exact ⟨asciiLower_of_or c d h.1 (h1 c (by simp)) (h2 d (by simp)),
      map_asciiLower_of_map_or l1 l2 (fun x hx => h1 x (by simp [hx]))
        (fun x hx => h2 x (by simp [hx])) h.2⟩

/-- C17 as stated fails: `EqualsFold` holds the one-byte sequences `@` (0x40)
and the backquote (0x60) for equal, and neither byte is a letter. -/
theorem EqualsFold_counterexample :
    EqualsFold ⟨[0x40], []⟩ ⟨[0x60], []⟩ = some true ∧
    ¬ (([0x40] : List Nat).length = ([0x60] : List Nat).length ∧
      ([0x40] : List Nat).map asciiLower = ([0x60] : List Nat).map asciiLower) := by
  decide

/-- C17, amended. `EqualsFold(a, b)` never panics and is true if and only if
`a` and `b` have the same length and agree byte for byte once the bit `0x20` is
set in every byte. It is true whenever `a` and `b` are equal after mapping
`'A'..'Z'` to `'a'..'z'`, and when every byte of `a` and of `b` is an ASCII
letter or has the bit `0x20` set it is true only then. -/
theorem EqualsFold_spec (a b : Slice) :
    (EqualsFold a b = some true ∨ EqualsFold a b = some false) ∧
    (EqualsFold a b = some true ↔
      a.data.map (fun c => c ||| 0x20) = b.data.map (fun c => c ||| 0x20)) ∧
    (a.data.map asciiLower = b.data.map asciiLower → EqualsFold a b = some true) ∧
    ((∀ c ∈ a.data, isAsciiLetter c = true ∨ c ||| 0x20 = c) →
      (∀ c ∈ b.data, isAsciiLetter c = true ∨ c ||| 0x20 = c) →
      (EqualsFold a b = some true ↔ a.data.map asciiLower = b.data.map asciiLower)) := by
  have hiff : EqualsFold a b = some true ↔
      a.data.map (fun c => c ||| 0x20) = b.data.map (fun c => c ||| 0x20) := by
    rw [EqualsFold_eq]
    simp
  refine ⟨?_, hiff, fun h => hiff.2 (map_or_of_map_asciiLower _ _ h), fun ha hb =>
    ⟨fun h => map_asciiLower_of_map_or _ _ ha hb (hiff.1 h),
     fun h => hiff.2 (map_or_of_map_asciiLower _ _ h)⟩⟩
  rw [EqualsFold_eq]
  by_cases h : a.data.map (fun c => c ||| 0x20) = b.data.map (fun c => c ||| 0x20)
  · left; simp [h]
  · right; simp [h]

theorem EqualsFold_spec_witness :
    EqualsFold ⟨[0x41, 0x62, 0x2D], []⟩ ⟨[0x61, 0x42, 0x2D], []⟩ = some true :=
  (EqualsFold_spec ⟨[0x41, 0x62, 0x2D], []⟩ ⟨[0x61, 0x42, 0x2D], []⟩).2.2.1 (by decide)

theorem AddPadding_filler_off_by_one_witness :
    ∃ o1 o2, AddPadding growExact 0 rndZero ⟨[1, 2], []⟩ = some o1 ∧
      AddPadding growExact 0 (fun i => i + 1) ⟨[1, 2], []⟩ = some o2 ∧
      o1.data[2 + (0 + 9)]? = some 0 ∧ o2.data[2 + (0 + 9)]? = some 0 := by
  obtain ⟨o1, o2, h1, h2, -, -, -, -, e, z⟩ :=
    AddPadding_filler_off_by_one growExact 0 ⟨[1, 2], []⟩ rndZero (fun i => i + 1)
  exact ⟨o1, o2, h1, h2, z rfl, e.trans (z rfl)⟩

/-! ## Panics and padding errors -/

/-- C11, evaluated. On an envelope with the flag PADDED and an empty payload,
`CutPadding` panics on `payload[0]`, and `Data.ReadFrame` and
`Headers.ReadFrame` with it. On the payload `00 41` with the declared length 3
the guard of `CutPadding` lets the call through, `len(payload)` being equal to
`length-pad-1`, and the slice expression `payload[1:3]` panics. On the
envelope of C8 `Headers.ReadFrame` panics on `payload[4]`. -/
theorem decode_panics :
    CutPadding emptyPaddedFrame.payload emptyPaddedFrame.Len = none ∧
    emptyData.ReadFrame growExact emptyPaddedFrame = none ∧
    resetHeaders.ReadFrame growExact emptyPaddedFrame = none ∧
    CutPadding longDeclaredFrame.payload longDeclaredFrame.Len = none ∧
    emptyData.ReadFrame growExact longDeclaredFrame = none ∧
    resetHeaders.ReadFrame growExact longDeclaredFrame = none ∧
    resetHeaders.ReadFrame growExact paddedPriorityFrame = none := by
  decide

/-- C15, evaluated. With dependency and weight above zero `Headers.WriteFrame`
panics on a header block shorter than 6 bytes: on the empty block of a reset
instance at `h.rawHeaders[1:5]`, on a block of five bytes in a buffer of
capacity 8 at `h.rawHeaders[5]`. -/
theorem Headers_WriteFrame_panics_short_block :
    emptyPrioHeaders.stream > 0 ∧ emptyPrioHeaders.weight > 0 ∧
    emptyPrioHeaders.rawHeaders.slice 1 5 = none ∧
    emptyPrioHeaders.WriteFrame growExact 0 rndZero freshFrame = none ∧
    shortPrioHeaders.rawHeaders.len = 5 ∧
    shortPrioHeaders.WriteFrame growExact 0 rndZero freshFrame = none := by
  decide
end Http2
